import Mathlib

/-!
Verification of the EnhancedMap cache/persistence engine (src/src/index.ts).

JavaScript values are modelled as labelled trees: every container (object or
array) carries a numeric identity label that plays the role of its heap
address, so aliasing between two trees is label equality, `cloneDeep`
relabels every container with fresh labels, and strict equality on
containers compares labels only.  Null and undefined are conflated as
`null` (both satisfy lodash `isNil`).  JavaScript numbers are modelled as
rationals; IEEE-754 rounding, NaN and infinities are outside the model and
noted where relevant.
-/

namespace Enmap

/-- Scalar value stored in the lastnum column of the autonum counter table. -/
inductive SqlVal : Type where
  | int : Int → SqlVal
  | text : String → SqlVal
  | nullv : SqlVal
deriving DecidableEq

mutual
/-- JavaScript values; containers carry an identity label (heap address). -/
inductive JVal : Type where
  | null : JVal
  | bool : Bool → JVal
  | num : Rat → JVal
  | str : String → JVal
  | obj : Nat → JFields → JVal
  | arr : Nat → JElems → JVal

/-- Field list of a JavaScript object, in insertion order. -/
inductive JFields : Type where
  | fnil : JFields
  | fcons : String → JVal → JFields → JFields

/-- Element list of a JavaScript array. -/
inductive JElems : Type where
  | enil : JElems
  | econs : JVal → JElems → JElems
end

/-- Label-free values, used to state structural (deep) equality of results. -/
inductive PVal : Type where
  | null : PVal
  | bool : Bool → PVal
  | num : Rat → PVal
  | str : String → PVal
  | obj : List (String × PVal) → PVal
  | arr : List PVal → PVal

/-- JavaScript truthiness of a value (objects and arrays are always truthy). -/
def jsTruthy : JVal → Bool
  | .null => false
  | .bool b => b
  | .num q => decide (q ≠ 0)
  | .str s => decide (s ≠ "")
  | .obj _ _ => true
  | .arr _ _ => true

/-- The constructor name of a value, as used by the runtime type checks
(`value.constructor.name`); null/undefined have none. -/
def typeName : JVal → Option String
  | .null => none
  | .bool _ => some "Boolean"
  | .num _ => some "Number"
  | .str _ => some "String"
  | .obj _ _ => some "Object"
  | .arr _ _ => some "Array"

/-- Whether a value is a primitive (not a mutable container). -/
def isPrim : JVal → Bool
  | .obj _ _ => false
  | .arr _ _ => false
  | _ => true

/-- JavaScript strict equality: primitives by value, containers by identity
label.  (NaN is outside the model.) -/
def jsEq : JVal → JVal → Bool
  | .null, .null => true
  | .bool a, .bool b => decide (a = b)
  | .num a, .num b => decide (a = b)
  | .str a, .str b => decide (a = b)
  | .obj a _, .obj b _ => decide (a = b)
  | .arr a _, .arr b _ => decide (a = b)
  | _, _ => false

/-- Lookup in an object field list. -/
def flookup : JFields → String → Option JVal
  | .fnil, _ => none
  | .fcons k v r, k0 => if k = k0 then some v else flookup r k0

/-- Set a field: replaces in place, or appends a new field at the end
(JavaScript property insertion order). -/
def fset : JFields → String → JVal → JFields
  | .fnil, k, v => .fcons k v .fnil
  | .fcons k0 v0 r, k, v =>
      if k0 = k then .fcons k0 v r else .fcons k0 v0 (fset r k v)

/-- Remove a field from an object field list. -/
def ferase : JFields → String → JFields
  | .fnil, _ => .fnil
  | .fcons k0 v0 r, k => if k0 = k then r else .fcons k0 v0 (ferase r k)

/-- Array element at an index. -/
def eget : JElems → Nat → Option JVal
  | .enil, _ => none
  | .econs v _, 0 => some v
  | .econs _ r, n + 1 => eget r n

/-- Write an array element at an index, padding holes with null
(JavaScript holes read as undefined, conflated with null here). -/
def eset : JElems → Nat → JVal → JElems
  | .enil, 0, v => .econs v .enil
  | .enil, n + 1, v => .econs .null (eset .enil n v)
  | .econs _ r, 0, v => .econs v r
  | .econs v0 r, n + 1, v => .econs v0 (eset r n v)

/-- Append an element at the end of an array (Array.prototype.push). -/
def eappend : JElems → JVal → JElems
  | .enil, v => .econs v .enil
  | .econs v0 r, v => .econs v0 (eappend r v)

/-- Whether some element is strictly equal to x (indexOf(x) > -1). -/
def anyEq : JElems → JVal → Bool
  | .enil, _ => false
  | .econs v r, x => jsEq v x || anyEq r x

/-- Number of elements strictly equal to x. -/
def countEq : JElems → JVal → Nat
  | .enil, _ => 0
  | .econs v r, x => (if jsEq v x then 1 else 0) + countEq r x

mutual
/-- Erase identity labels, yielding the structural content of a value. -/
def stripV : JVal → PVal
  | .null => .null
  | .bool b => .bool b
  | .num q => .num q
  | .str s => .str s
  | .obj _ fs => .obj (stripF fs)
  | .arr _ es => .arr (stripE es)

def stripF : JFields → List (String × PVal)
  | .fnil => []
  | .fcons k v r => (k, stripV v) :: stripF r

def stripE : JElems → List PVal
  | .enil => []
  | .econs v r => stripV v :: stripE r
end

mutual
/-- lodash cloneDeep with the clone level fixed to deep (the constructor
hardcodes cloneLevel to deep): copy the structure, allocating a fresh label
for every container; the second component is the next free label. -/
def cloneV (c : Nat) : JVal → JVal × Nat
  | .null => (.null, c)
  | .bool b => (.bool b, c)
  | .num q => (.num q, c)
  | .str s => (.str s, c)
  | .obj _ fs => let p := cloneF c fs; (.obj p.2 p.1, p.2 + 1)
  | .arr _ es => let p := cloneE c es; (.arr p.2 p.1, p.2 + 1)

def cloneF (c : Nat) : JFields → JFields × Nat
  | .fnil => (.fnil, c)
  | .fcons k v r =>
      let p := cloneV c v
      let q := cloneF p.2 r
      (.fcons k p.1 q.1, q.2)

def cloneE (c : Nat) : JElems → JElems × Nat
  | .enil => (.enil, c)
  | .econs v r =>
      let p := cloneV c v
      let q := cloneE p.2 r
      (.econs p.1 q.1, q.2)
end

mutual
/-- All container labels occurring in a value. -/
def labelsV : JVal → List Nat
  | .null => []
  | .bool _ => []
  | .num _ => []
  | .str _ => []
  | .obj l fs => l :: labelsF fs
  | .arr l es => l :: labelsE es

def labelsF : JFields → List Nat
  | .fnil => []
  | .fcons _ v r => labelsV v ++ labelsF r

def labelsE : JElems → List Nat
  | .enil => []
  | .econs v r => labelsV v ++ labelsE r
end

/-- A caller-side mutation of a JavaScript object: assigning a field of an
object, or an index of an array. -/
inductive Mut : Type where
  | setField : String → JVal → Mut
  | setIdx : Nat → JVal → Mut

mutual
/-- Apply a mutation to the object whose identity label is t: every node
carrying label t (the same heap object) is updated.  A field assignment on
an array node or an index assignment on an object node is not modelled. -/
def mutV (t : Nat) (m : Mut) : JVal → JVal
  | .null => .null
  | .bool b => .bool b
  | .num q => .num q
  | .str s => .str s
  | .obj l fs =>
      let fs2 := mutF t m fs
      if l = t then
        match m with
        | .setField f w => .obj l (fset fs2 f w)
        | .setIdx _ _ => .obj l fs2
      else .obj l fs2
  | .arr l es =>
      let es2 := mutE t m es
      if l = t then
        match m with
        | .setIdx i w => .arr l (eset es2 i w)
        | .setField _ _ => .arr l es2
      else .arr l es2

def mutF (t : Nat) (m : Mut) : JFields → JFields
  | .fnil => .fnil
  | .fcons k v r => .fcons k (mutV t m v) (mutF t m r)

def mutE (t : Nat) (m : Mut) : JElems → JElems
  | .enil => .enil
  | .econs v r => .econs (mutV t m v) (mutE t m r)
end

/-- Lookup in an association list keyed by strings (the in-memory Map and
the backing-store table). -/
def alookup {α : Type} : List (String × α) → String → Option α
  | [], _ => none
  | p :: r, k => if p.1 = k then some p.2 else alookup r k

/-- Upsert: replace in place if the key is present, else append. -/
def aset {α : Type} : List (String × α) → String → α → List (String × α)
  | [], k, v => [(k, v)]
  | p :: r, k, v => if p.1 = k then (k, v) :: r else p :: aset r k v

/-- Remove a key.  A JavaScript Map never holds duplicate keys, so removing
every binding of the key is the same as removing the single one. -/
def aerase {α : Type} : List (String × α) → String → List (String × α)
  | [], _ => []
  | p :: r, k => if p.1 = k then aerase r k else p :: aerase r k

/-- Whether a path segment is a valid array index (lodash isIndex). -/
def isIndexSeg (s : String) : Bool := s.toNat?.isSome

/-- lodash get over a pre-split dotted path: resolve the segments in order;
the first missing segment yields undefined (none). -/
def pathGet (v : JVal) (segs : List String) : Option JVal :=
  match segs with
  | [] => some v
  | s :: rest =>
      match v with
      | .obj _ fs =>
          match flookup fs s with
          | some ch => pathGet ch rest
          | none => none
      | .arr _ es =>
          match s.toNat? with
          | some i =>
              match eget es i with
              | some ch => pathGet ch rest
              | none => none
          | none => none
      | _ => none

/-- lodash set over a pre-split dotted path: writes the final segment,
creating a fresh empty container for each missing intermediate segment (an
array when the next segment is an index, else an object); non-objects are
returned unchanged.  The counter supplies fresh labels. -/
def pathSetGo (w : JVal) : List String → Nat → JVal → JVal × Nat
  | [], c, v => (v, c)
  | s :: rest, c, v =>
      match v with
      | .obj l fs =>
          if rest.isEmpty then (.obj l (fset fs s w), c)
          else
            match flookup fs s with
            | some ch =>
                let p := pathSetGo w rest c ch
                (.obj l (fset fs s p.1), p.2)
            | none =>
                let base :=
                  if isIndexSeg (rest.headD "") then JVal.arr c .enil else JVal.obj c .fnil
                let p := pathSetGo w rest (c + 1) base
                (.obj l (fset fs s p.1), p.2)
      | .arr l es =>
          match s.toNat? with
          | some i =>
              if rest.isEmpty then (.arr l (eset es i w), c)
              else
                match eget es i with
                | some ch =>
                    let p := pathSetGo w rest c ch
                    (.arr l (eset es i p.1), p.2)
                | none =>
                    let base :=
                      if isIndexSeg (rest.headD "") then JVal.arr c .enil else JVal.obj c .fnil
                    let p := pathSetGo w rest (c + 1) base
                    (.arr l (eset es i p.1), p.2)
          | none => (.arr l es, c)
      | _ => (v, c)

def pathSet (c : Nat) (v : JVal) (segs : List String) (w : JVal) : JVal × Nat :=
  pathSetGo w segs c v

/-- Truncation toward zero, as in a JavaScript remainder computation. -/
def ratTrunc (q : Rat) : Int := if 0 ≤ q then ⌊q⌋ else ⌈q⌉

/-- JavaScript remainder: sign follows the dividend (x % 0 is NaN, outside
this rational model). -/
def jsMod (b o : Rat) : Rat := b - o * (ratTrunc (b / o) : Rat)

/-- Math.pow restricted to integer exponents; a fractional exponent yields
an irrational (or NaN) result that the rational model cannot represent, and
no claim exercises it. -/
def jsPow (b o : Rat) : Rat := if o.den = 1 then b ^ o.num else 0

/-- The switch of _mathop (index.ts 898-936) on the operation name; an
unknown name falls through the switch and yields undefined (none).  The
rand/random cases call Math.random and are not modelled (nondeterministic,
and outside the claimed operation set). -/
def jsMathop (op : String) (b o : Rat) : Option Rat :=
  if op = "add" ∨ op = "addition" ∨ op = "+" then some (b + o)
  else if op = "sub" ∨ op = "subtract" ∨ op = "-" then some (b - o)
  else if op = "mult" ∨ op = "multiply" ∨ op = "*" then some (b * o)
  else if op = "div" ∨ op = "divide" ∨ op = "/" then some (b / o)
  else if op = "exp" ∨ op = "exponent" ∨ op = "^" then some (jsPow b o)
  else if op = "mod" ∨ op = "modulo" ∨ op = "%" then some (jsMod b o)
  else none

/-- State owned by one store instance: the in-memory cache, the rows of its
backing-store table, its row in the shared autonum counter table, the next
free container label, and the destroyed flag. -/
structure State where
  cache : List (String × JVal)
  db : List (String × String)
  counterRow : Option SqlVal
  ctr : Nat
  isDestroyed : Bool

/-- Synchronous error kinds thrown by the operations. -/
inductive Err : Type where
  | destroyed : Err
  | keyType : Err
  | pathErr : Err
  | typeErr : Err
  | refErr : Err
  | encodeErr : Err
  | dbErr : Err
deriving DecidableEq

/-- Observable steps of an operation, in execution order. -/
inductive Event : Type where
  | notify : String → Option JVal → Option JVal → Event
  | encodeEv : String → Event
  | dbWrite : String → String → Event
  | dbDelete : String → Event
  | cacheWrite : String → JVal → Event
  | cacheDelete : String → Event

def isNotify : Event → Bool
  | .notify _ _ _ => true
  | _ => false

/-- Per-store configuration: options fixed at construction, plus the
encoding codec (the serializer hook composed with serialize-javascript; the
fallback is the retry on onChange.target) and a flag modelling whether the
backing-store statements succeed. -/
structure Env where
  persistent : Bool
  autoFetch : Bool
  hasChangedCB : Bool
  defaultVal : JVal
  encode : JVal → Except Unit String
  encodeFB : JVal → Except Unit String
  decode : String → JVal
  dbOk : Bool

/-- Result of an operation that returns no value: the state reached (also
on failure, reflecting mutations performed before the throw), the events
emitted, and the error thrown, if any. -/
structure OpRes where
  st : State
  tr : List Event
  err : Option Err

/-- Result of an operation returning a value. -/
structure GetRes where
  st : State
  tr : List Event
  err : Option Err
  val : Option JVal

/-- Result of a boolean-returning operation. -/
structure HasRes where
  st : State
  tr : List Event
  err : Option Err
  val : Bool

/-- _readyCheck (index.ts 990-995): throws DestroyedError if destroyed. -/
def readyCheck (st : State) : Option Err :=
  if st.isDestroyed then some .destroyed else none

/-- Single-key fetch (index.ts 340-346): point read from the backing store,
decoding and caching the row if present. -/
def fetchOne (env : Env) (st : State) (k : String) : State × List Event :=
  match alookup st.db k with
  | none => (st, [])
  | some s =>
      let v := env.decode s
      ({ st with cache := aset st.cache k v }, [.cacheWrite k v])

/-- _fetchCheck (index.ts 951-961): autofetch the key on a cache miss when
the store is persistent and autoFetch is enabled. -/
def fetchCheck (env : Env) (st : State) (k : String) : State × List Event :=
  if (alookup st.cache k).isSome then (st, [])
  else if env.persistent && env.autoFetch then fetchOne env st k
  else (st, [])

/-- _internalSet (index.ts 1000-1016): for a persistent store, encode the
value (retrying once on the fallback; the error propagates if both throw),
run the upsert statement, and only then update the cache when asked. -/
def internalSetEx (env : Env) (st : State) (k : String) (v : JVal)
    (updateCache : Bool) : OpRes :=
  if env.persistent then
    match (match env.encode v with
           | .ok s => some s
           | .error _ => (env.encodeFB v).toOption) with
    | none => ⟨st, [.encodeEv k], some .encodeErr⟩
    | some s =>
        if env.dbOk then
          if updateCache then
            ⟨{ st with db := aset st.db k s, cache := aset st.cache k v },
             [.encodeEv k, .dbWrite k s, .cacheWrite k v], none⟩
          else
            ⟨{ st with db := aset st.db k s }, [.encodeEv k, .dbWrite k s], none⟩
        else ⟨st, [.encodeEv k], some .dbErr⟩
  else
    if updateCache then
      ⟨{ st with cache := aset st.cache k v }, [.cacheWrite k v], none⟩
    else ⟨st, [], none⟩

/-- has(key) without a path (index.ts 536-546): ready check, autofetch on
miss, then Map.has. -/
def hasNoPath (env : Env) (st : State) (k : String) : HasRes :=
  match readyCheck st with
  | some e => ⟨st, [], some e, false⟩
  | none =>
      let p := fetchCheck env st k
      ⟨p.1, p.2, none, (alookup p.1.cache k).isSome⟩

/-- get(key) without a path (index.ts 245-259): ready check, autofetch,
materialization of a truthy default through _internalSet when the key is
absent, then a deep clone of the cached value (undefined stays undefined). -/
def getNoPath (env : Env) (st : State) (k : String) : GetRes :=
  match readyCheck st with
  | some e => ⟨st, [], some e, none⟩
  | none =>
      let p := fetchCheck env st k
      let h := hasNoPath env p.1 k
      if jsTruthy env.defaultVal && !h.val then
        let i := internalSetEx env h.st k env.defaultVal true
        match i.err with
        | some e => ⟨i.st, p.2 ++ h.tr ++ i.tr, some e, none⟩
        | none =>
            match alookup i.st.cache k with
            | none => ⟨i.st, p.2 ++ h.tr ++ i.tr, none, none⟩
            | some d =>
                let q := cloneV i.st.ctr d
                ⟨{ i.st with ctr := q.2 }, p.2 ++ h.tr ++ i.tr, none, some q.1⟩
      else
        match alookup h.st.cache k with
        | none => ⟨h.st, p.2 ++ h.tr, none, none⟩
        | some d =>
            let q := cloneV h.st.ctr d
            ⟨{ h.st with ctr := q.2 }, p.2 ++ h.tr, none, some q.1⟩

/-- _check(key, types) with no path (index.ts 857-889): PathError when the
key is absent, KeyTypeError when the runtime constructor name of the value
returned by get is not among the expected ones (nil values have none). -/
def checkNoPath (env : Env) (st : State) (k : String) (types : List String) : OpRes :=
  let h := hasNoPath env st k
  match h.err with
  | some e => ⟨h.st, h.tr, some e⟩
  | none =>
      if !h.val then ⟨h.st, h.tr, some .pathErr⟩
      else
        let g := getNoPath env h.st k
        match g.err with
        | some e => ⟨g.st, h.tr ++ g.tr, some e⟩
        | none =>
            match g.val with
            | none => ⟨g.st, h.tr ++ g.tr, some .keyType⟩
            | some v =>
                match typeName v with
                | some tn =>
                    if tn ∈ types then ⟨g.st, h.tr ++ g.tr, none⟩
                    else ⟨g.st, h.tr ++ g.tr, some .keyType⟩
                | none => ⟨g.st, h.tr ++ g.tr, some .keyType⟩

/-- _check(key, types, path) (index.ts 857-889): key-existence check, a
recursive Object check, then PathError when the addressed leaf is nil and
KeyTypeError when its constructor name is not among the expected ones. -/
def checkWithPath (env : Env) (st : State) (k : String) (types : List String)
    (segs : List String) : OpRes :=
  let h := hasNoPath env st k
  match h.err with
  | some e => ⟨h.st, h.tr, some e⟩
  | none =>
      if !h.val then ⟨h.st, h.tr, some .pathErr⟩
      else
        let c := checkNoPath env h.st k ["Object"]
        match c.err with
        | some e => ⟨c.st, h.tr ++ c.tr, some e⟩
        | none =>
            let g := getNoPath env c.st k
            match g.err with
            | some e => ⟨g.st, h.tr ++ c.tr ++ g.tr, some e⟩
            | none =>
                match g.val with
                | none => ⟨g.st, h.tr ++ c.tr ++ g.tr, some .pathErr⟩
                | some d =>
                    match pathGet d segs with
                    | none => ⟨g.st, h.tr ++ c.tr ++ g.tr, some .pathErr⟩
                    | some .null => ⟨g.st, h.tr ++ c.tr ++ g.tr, some .pathErr⟩
                    | some leaf =>
                        match typeName leaf with
                        | some tn =>
                            if tn ∈ types then ⟨g.st, h.tr ++ c.tr ++ g.tr, none⟩
                            else ⟨g.st, h.tr ++ c.tr ++ g.tr, some .keyType⟩
                        | none => ⟨g.st, h.tr ++ c.tr ++ g.tr, some .keyType⟩

/-- _check dispatch on the optional path. -/
def checkRun (env : Env) (st : State) (k : String) (types : List String)
    (p : Option (List String)) : OpRes :=
  match p with
  | none => checkNoPath env st k types
  | some segs => checkWithPath env st k types segs

/-- Tail of get(key, path) (index.ts 253-257): the Object/Array check, then
lodash get on the raw cached value — the subtree is returned without any
clone, aliasing the retained copy. -/
def getWithPathTail (env : Env) (st : State) (tr0 : List Event) (k : String)
    (segs : List String) : GetRes :=
  let c := checkNoPath env st k ["Object", "Array"]
  match c.err with
  | some e => ⟨c.st, tr0 ++ c.tr, some e, none⟩
  | none =>
      match alookup c.st.cache k with
      | none => ⟨c.st, tr0 ++ c.tr, none, none⟩
      | some d => ⟨c.st, tr0 ++ c.tr, none, pathGet d segs⟩

/-- get(key, path) (index.ts 245-259): same prefix as get(key) (ready
check, autofetch, default materialization), then the unchecked-alias read. -/
def getWithPath (env : Env) (st : State) (k : String) (segs : List String) : GetRes :=
  match readyCheck st with
  | some e => ⟨st, [], some e, none⟩
  | none =>
      let p := fetchCheck env st k
      let h := hasNoPath env p.1 k
      if jsTruthy env.defaultVal && !h.val then
        let i := internalSetEx env h.st k env.defaultVal true
        match i.err with
        | some e => ⟨i.st, p.2 ++ h.tr ++ i.tr, some e, none⟩
        | none => getWithPathTail env i.st (p.2 ++ h.tr ++ i.tr) k segs
      else getWithPathTail env h.st (p.2 ++ h.tr) k segs

/-- get dispatch on the optional path. -/
def getRun (env : Env) (st : State) (k : String) (p : Option (List String)) : GetRes :=
  match p with
  | none => getNoPath env st k
  | some segs => getWithPath env st k segs

/-- has(key, path?) (index.ts 536-546): with a path, an Object check then
lodash has on the value returned by get. -/
def hasRun (env : Env) (st : State) (k : String) (p : Option (List String)) : HasRes :=
  match p with
  | none => hasNoPath env st k
  | some segs =>
      match readyCheck st with
      | some e => ⟨st, [], some e, false⟩
      | none =>
          let f := fetchCheck env st k
          let c := checkNoPath env f.1 k ["Object"]
          match c.err with
          | some e => ⟨c.st, f.2 ++ c.tr, some e, false⟩
          | none =>
              let g := getNoPath env c.st k
              match g.err with
              | some e => ⟨g.st, f.2 ++ c.tr ++ g.tr, some e, false⟩
              | none =>
                  match g.val with
                  | none => ⟨g.st, f.2 ++ c.tr ++ g.tr, none, false⟩
                  | some d => ⟨g.st, f.2 ++ c.tr ++ g.tr, none, (pathGet d segs).isSome⟩

/-- set(key, value, path?) (index.ts 165-187): read the current value with
get, snapshot oldValue as a clone when the key is in the cache, apply the
path write (on a fresh empty object when the value is nil), invoke the
change callback before any write, then _internalSet without cache update
followed by the cache write of a fresh clone.  Keys are always strings in
this model, so the KeyTypeError branch for non-string keys is unreachable. -/
def setRun (env : Env) (st : State) (k : String) (v : JVal)
    (p : Option (List String)) : OpRes :=
  let g := getNoPath env st k
  match g.err with
  | some e => ⟨g.st, g.tr, some e⟩
  | none =>
      let oc :=
        match g.val with
        | some d =>
            if (alookup g.st.cache k).isSome then
              let q := cloneV g.st.ctr d
              (some q.1, { g.st with ctr := q.2 })
            else (none, g.st)
        | none => (none, g.st)
      let st1 := oc.2
      let nd :=
        match p with
        | none => (v, st1)
        | some segs =>
            match g.val with
            | some d =>
                let q := pathSet st1.ctr d segs v
                (q.1, { st1 with ctr := q.2 })
            | none =>
                let q := pathSet (st1.ctr + 1) (JVal.obj st1.ctr .fnil) segs v
                (q.1, { st1 with ctr := q.2 })
      let st2 := nd.2
      let trN := if env.hasChangedCB then [Event.notify k oc.1 (some nd.1)] else []
      let i := internalSetEx env st2 k nd.1 false
      match i.err with
      | some e => ⟨i.st, g.tr ++ trN ++ i.tr, some e⟩
      | none =>
          let q := cloneV i.st.ctr nd.1
          ⟨{ i.st with cache := aset i.st.cache k q.1, ctr := q.2 },
           g.tr ++ trN ++ i.tr ++ [.cacheWrite k q.1], none⟩

/-- delete(key, path?) (index.ts 591-623).  Without a path: remove from the
cache, then for a persistent store run the DELETE statement and return
(skipping the change callback), else invoke the callback with newValue
null.  With a path the code reaches `if (isArray(propValue))` where
isArray is a free identifier (never imported; the file only ever defines
Array.isArray), so the branch always throws a ReferenceError. -/
def deleteRun (env : Env) (st : State) (k : String) (p : Option (List String)) : OpRes :=
  match readyCheck st with
  | some e => ⟨st, [], some e⟩
  | none =>
      let f := fetchCheck env st k
      let g := getNoPath env f.1 k
      match g.err with
      | some e => ⟨g.st, f.2 ++ g.tr, some e⟩
      | none =>
          match p with
          | some _ =>
              let g2 := getNoPath env g.st k
              match g2.err with
              | some e => ⟨g2.st, f.2 ++ g.tr ++ g2.tr, some e⟩
              | none => ⟨g2.st, f.2 ++ g.tr ++ g2.tr, some .refErr⟩
          | none =>
              let st1 := { g.st with cache := aerase g.st.cache k }
              if env.persistent then
                if env.dbOk then
                  ⟨{ st1 with db := aerase st1.db k },
                   f.2 ++ g.tr ++ [.cacheDelete k, .dbDelete k], none⟩
                else ⟨st1, f.2 ++ g.tr ++ [.cacheDelete k], some .dbErr⟩
              else
                if env.hasChangedCB then
                  ⟨st1, f.2 ++ g.tr ++ [.cacheDelete k, .notify k g.val none], none⟩
                else ⟨st1, f.2 ++ g.tr ++ [.cacheDelete k], none⟩

/-- push(key, val, path?, allowDupes) (index.ts 432-445): get, Array check,
then no-op when allowDupes is false and indexOf finds a strictly equal
element, else append to the (cloned) array and commit via _internalSet. -/
def pushRun (env : Env) (st : State) (k : String) (x : JVal)
    (p : Option (List String)) (allowDupes : Bool) : OpRes :=
  let g := getNoPath env st k
  match g.err with
  | some e => ⟨g.st, g.tr, some e⟩
  | none =>
      let c := checkRun env g.st k ["Array"] p
      match c.err with
      | some e => ⟨c.st, g.tr ++ c.tr, some e⟩
      | none =>
          match p with
          | none =>
              match g.val with
              | some (.arr l es) =>
                  if !allowDupes && anyEq es x then ⟨c.st, g.tr ++ c.tr, none⟩
                  else
                    let i := internalSetEx env c.st k (.arr l (eappend es x)) true
                    ⟨i.st, g.tr ++ c.tr ++ i.tr, i.err⟩
              | _ => ⟨c.st, g.tr ++ c.tr, some .typeErr⟩
          | some segs =>
              match g.val with
              | some d =>
                  match pathGet d segs with
                  | some (.arr l es) =>
                      if !allowDupes && anyEq es x then ⟨c.st, g.tr ++ c.tr, none⟩
                      else
                        let q := pathSet c.st.ctr d segs (.arr l (eappend es x))
                        let i := internalSetEx env { c.st with ctr := q.2 } k q.1 true
                        ⟨i.st, g.tr ++ c.tr ++ i.tr, i.err⟩
                  | _ => ⟨c.st, g.tr ++ c.tr, some .typeErr⟩
              | none => ⟨c.st, g.tr ++ c.tr, some .typeErr⟩

/-- math(key, operation, operand, path?) (index.ts 466-471): Number check,
get, _mathop, then write the result back through set.  A nil base makes
_mathop throw a TypeError; a non-number base is unreachable after the
check. -/
def mathRun (env : Env) (st : State) (k : String) (op : String) (opand : Rat)
    (p : Option (List String)) : OpRes :=
  let c := checkRun env st k ["Number"] p
  match c.err with
  | some e => ⟨c.st, c.tr, some e⟩
  | none =>
      let g := getRun env c.st k p
      match g.err with
      | some e => ⟨g.st, c.tr ++ g.tr, some e⟩
      | none =>
          match g.val with
          | some (.num b) =>
              match jsMathop op b opand with
              | some r =>
                  let s := setRun env g.st k (.num r) p
                  ⟨s.st, c.tr ++ g.tr ++ s.tr, s.err⟩
              | none =>
                  let s := setRun env g.st k .null p
                  ⟨s.st, c.tr ++ g.tr ++ s.tr, s.err⟩
          | _ => ⟨g.st, c.tr ++ g.tr, some .typeErr⟩

/-- inc(key, path?) (index.ts 485-496): Number check, then increment the
value (or the addressed leaf) by one and commit via _internalSet. -/
def incRun (env : Env) (st : State) (k : String) (p : Option (List String)) : OpRes :=
  let c := checkRun env st k ["Number"] p
  match c.err with
  | some e => ⟨c.st, c.tr, some e⟩
  | none =>
      match p with
      | none =>
          let g := getNoPath env c.st k
          match g.err, g.val with
          | none, some (.num b) =>
              let i := internalSetEx env g.st k (.num (b + 1)) true
              ⟨i.st, c.tr ++ g.tr ++ i.tr, i.err⟩
          | some e, _ => ⟨g.st, c.tr ++ g.tr, some e⟩
          | none, _ => ⟨g.st, c.tr ++ g.tr, some .typeErr⟩
      | some segs =>
          let g := getNoPath env c.st k
          match g.err, g.val with
          | none, some d =>
              match pathGet d segs with
              | some (.num b) =>
                  let q := pathSet g.st.ctr d segs (.num (b + 1))
                  let i := internalSetEx env { g.st with ctr := q.2 } k q.1 true
                  ⟨i.st, c.tr ++ g.tr ++ i.tr, i.err⟩
              | _ => ⟨g.st, c.tr ++ g.tr, some .typeErr⟩
          | some e, _ => ⟨g.st, c.tr ++ g.tr, some e⟩
          | none, _ => ⟨g.st, c.tr ++ g.tr, some .typeErr⟩

/-- dec(key, path?) (index.ts 510-521): like inc with minus one. -/
def decRun (env : Env) (st : State) (k : String) (p : Option (List String)) : OpRes :=
  let c := checkRun env st k ["Number"] p
  match c.err with
  | some e => ⟨c.st, c.tr, some e⟩
  | none =>
      match p with
      | none =>
          let g := getNoPath env c.st k
          match g.err, g.val with
          | none, some (.num b) =>
              let i := internalSetEx env g.st k (.num (b - 1)) true
              ⟨i.st, c.tr ++ g.tr ++ i.tr, i.err⟩
          | some e, _ => ⟨g.st, c.tr ++ g.tr, some e⟩
          | none, _ => ⟨g.st, c.tr ++ g.tr, some .typeErr⟩
      | some segs =>
          let g := getNoPath env c.st k
          match g.err, g.val with
          | none, some d =>
              match pathGet d segs with
              | some (.num b) =>
                  let q := pathSet g.st.ctr d segs (.num (b - 1))
                  let i := internalSetEx env { g.st with ctr := q.2 } k q.1 true
                  ⟨i.st, c.tr ++ g.tr ++ i.tr, i.err⟩
              | _ => ⟨g.st, c.tr ++ g.tr, some .typeErr⟩
          | some e, _ => ⟨g.st, c.tr ++ g.tr, some e⟩
          | none, _ => ⟨g.st, c.tr ++ g.tr, some .typeErr⟩

/-- evict (index.ts 354-363): removes the key from the in-memory cache
only; note the method performs neither a ready check nor database access. -/
def evictRun (st : State) (k : String) : OpRes :=
  ⟨{ st with cache := aerase st.cache k }, [.cacheDelete k], none⟩

/-- deleteAll (index.ts 628-634): ready check, full-table delete for a
persistent store, then Map.clear. -/
def deleteAllRun (env : Env) (st : State) : OpRes :=
  match readyCheck st with
  | some e => ⟨st, [], some e⟩
  | none =>
      if env.persistent then
        if env.dbOk then ⟨{ st with db := [], cache := [] }, [], none⟩
        else ⟨st, [], some .dbErr⟩
      else ⟨{ st with cache := [] }, [], none⟩

/-- destroy (index.ts 648-664): deleteAll, set isDestroyed, then drop the
table and delete the counter row inside a transaction.  For a
non-persistent store this.db is undefined, so calling the undefined
transaction throws a TypeError after isDestroyed was already set. -/
def destroyRun (env : Env) (st : State) : OpRes :=
  let d := deleteAllRun env st
  match d.err with
  | some e => ⟨d.st, d.tr, some e⟩
  | none =>
      let st1 := { d.st with isDestroyed := true }
      if env.persistent then
        ⟨{ st1 with db := [], counterRow := none }, d.tr, none⟩
      else ⟨st1, d.tr, some .typeErr⟩

/-- The autonum getter (index.ts 374-390).  The prepared SELECT returns the
whole row object — the code never projects .lastnum — so lastNum is the
JavaScript sum of a row object and 1: ToPrimitive of a plain object is the
string [object Object], hence the sum is the string [object Object]1; for
a missing row, undefined + 1 is NaN, printed NaN (the number NaN binds as
SQL NULL).  That string is written back to the counter row and returned. -/
def autonumRun (env : Env) (st : State) : String × State :=
  if env.persistent then
    match st.counterRow with
    | some _ =>
        ("[object Object]1", { st with counterRow := some (.text "[object Object]1") })
    | none => ("NaN", { st with counterRow := some .nullv })
  else ("NaN", st)

/-- Every container label in the cache is below the fresh-label counter. -/
def wfCache (st : State) : Bool :=
  st.cache.all (fun p => (labelsV p.2).all (fun t => decide (t < st.ctr)))

/-- Whether some cached value contains the container label t. -/
def stateHasLabel (st : State) (t : Nat) : Bool :=
  st.cache.any (fun p => decide (t ∈ labelsV p.2))

/-- Caller-side mutation of the heap object labelled t, as seen by the
store: every cached tree holding a node with that label is updated. -/
def mutState (t : Nat) (m : Mut) (st : State) : State :=
  { st with cache := st.cache.map (fun p => (p.1, mutV t m p.2)) }

/-- Structural content of an optional value. -/
def stripOpt : Option JVal → Option PVal
  | none => none
  | some v => some (stripV v)

/-! Concrete fixtures used by witnesses and counterexamples. -/

/-- Memory-store configuration: constructed without a name (non-persistent)
and without options, so the default value is the constructor fallback, the
empty object (index.ts 98: options.default ?? empty object). -/
def envMem : Env :=
  { persistent := false, autoFetch := true, hasChangedCB := false,
    defaultVal := .obj 0 .fnil,
    encode := fun _ => .ok "e", encodeFB := fun _ => .ok "e",
    decode := fun _ => .null, dbOk := true }

/-- Memory store with a registered change callback. -/
def envMemCB : Env := { envMem with hasChangedCB := true }

/-- Persistent-store configuration with a total codec. -/
def envPers : Env := { envMem with persistent := true }

/-- Persistent store with a registered change callback. -/
def envPersCB : Env := { envPers with hasChangedCB := true }

/-- Persistent store whose backing-store statements fail. -/
def envPersBad : Env := { envPers with dbOk := false }

/-- Fresh state: empty cache and table, the counter row initialized to 0 by
_init (index.ts 835-841), label counter above the fixture labels. -/
def st0 : State :=
  { cache := [], db := [], counterRow := some (.int 0), ctr := 1, isDestroyed := false }

/-- State holding one plain object under the key obj. -/
def stObj : State :=
  { cache := [("obj", .obj 0 (.fcons "a" (.num 1) (.fcons "b" (.num 2) .fnil)))],
    db := [], counterRow := some (.int 0), ctr := 1, isDestroyed := false }

/-- State of a persistent store holding one number under the key k. -/
def stP : State :=
  { cache := [("k", .num 1)], db := [("k", "e")], counterRow := some (.int 0),
    ctr := 1, isDestroyed := false }

/-- Memory store whose configured default is the object with fields a = 1
and b = 2 (the concrete scenario of the claim). -/
def envDef : Env :=
  { envMem with defaultVal := .obj 0 (.fcons "a" (.num 1) (.fcons "b" (.num 2) .fnil)) }

/-- State holding a nested object under k: the outer object has label 0,
the inner object stored at field a has label 1. -/
def stNest : State :=
  { cache := [("k", .obj 0 (.fcons "a" (.obj 1 (.fcons "b" (.num 1) .fnil)) .fnil))],
    db := [], counterRow := some (.int 0), ctr := 2, isDestroyed := false }

/-- State of a memory store holding the empty array under k. -/
def stArr : State :=
  { cache := [("k", .arr 0 .enil)], db := [], counterRow := some (.int 0),
    ctr := 1, isDestroyed := false }

/-- State of a memory store holding the array 5, 5 under k. -/
def st55 : State :=
  { cache := [("k", .arr 0 (.econs (.num 5) (.econs (.num 5) .enil)))], db := [],
    counterRow := some (.int 0), ctr := 1, isDestroyed := false }

/-- State of a memory store holding 42 under the key integer. -/
def stInt : State :=
  { cache := [("integer", .num 42)], db := [], counterRow := some (.int 0),
    ctr := 1, isDestroyed := false }

mutual
theorem cloneV_ctr_le (c : Nat) (v : JVal) : c ≤ (cloneV c v).2 := by
  cases v with
  | null => simp [cloneV]
  | bool b => simp [cloneV]
  | num q => simp [cloneV]
  | str s => simp [cloneV]
  | obj l fs =>
      have h := cloneF_ctr_le c fs
      simp only [cloneV]
      omega
  | arr l es =>
      have h := cloneE_ctr_le c es
      simp only [cloneV]
      omega

theorem cloneF_ctr_le (c : Nat) (fs : JFields) : c ≤ (cloneF c fs).2 := by
  cases fs with
  | fnil => simp [cloneF]
  | fcons k v r =>
      have h1 := cloneV_ctr_le c v
      have h2 := cloneF_ctr_le (cloneV c v).2 r
      simp only [cloneF]
      omega

theorem cloneE_ctr_le (c : Nat) (es : JElems) : c ≤ (cloneE c es).2 := by
  cases es with
  | enil => simp [cloneE]
  | econs v r =>
      have h1 := cloneV_ctr_le c v
      have h2 := cloneE_ctr_le (cloneV c v).2 r
      simp only [cloneE]
      omega
end

mutual
theorem cloneV_labels_ge (c : Nat) (v : JVal) :
    ∀ t ∈ labelsV (cloneV c v).1, c ≤ t := by
  cases v with
  | null => simp [cloneV, labelsV]
  | bool b => simp [cloneV, labelsV]
  | num q => simp [cloneV, labelsV]
  | str s => simp [cloneV, labelsV]
  | obj l fs =>
      have h := cloneF_labels_ge c fs
      have h2 := cloneF_ctr_le c fs
      simp only [cloneV, labelsV, List.mem_cons]
      rintro t (rfl | ht)
      · omega
      · exact h t ht
  | arr l es =>
      have h := cloneE_labels_ge c es
      have h2 := cloneE_ctr_le c es
      simp only [cloneV, labelsV, List.mem_cons]
      rintro t (rfl | ht)
      · omega
      · exact h t ht

theorem cloneF_labels_ge (c : Nat) (fs : JFields) :
    ∀ t ∈ labelsF (cloneF c fs).1, c ≤ t := by
  cases fs with
  | fnil => simp [cloneF, labelsF]
  | fcons k v r =>
      have h1 := cloneV_labels_ge c v
      have h2 := cloneF_labels_ge (cloneV c v).2 r
      have h3 := cloneV_ctr_le c v
      simp only [cloneF, labelsF, List.mem_append]
      rintro t (ht | ht)
      · exact h1 t ht
      · exact le_trans h3 (h2 t ht)

theorem cloneE_labels_ge (c : Nat) (es : JElems) :
    ∀ t ∈ labelsE (cloneE c es).1, c ≤ t := by
  cases es with
  | enil => simp [cloneE, labelsE]
  | econs v r =>
      have h1 := cloneV_labels_ge c v
      have h2 := cloneE_labels_ge (cloneV c v).2 r
      have h3 := cloneV_ctr_le c v
      simp only [cloneE, labelsE, List.mem_append]
      rintro t (ht | ht)
      · exact h1 t ht
      · exact le_trans h3 (h2 t ht)
end

mutual
theorem stripV_clone (c : Nat) (v : JVal) : stripV (cloneV c v).1 = stripV v := by
  cases v with
  | null => simp [cloneV, stripV]
  | bool b => simp [cloneV, stripV]
  | num q => simp [cloneV, stripV]
  | str s => simp [cloneV, stripV]
  | obj l fs =>
      have h := stripF_clone c fs
      simp only [cloneV, stripV]
      exact congrArg PVal.obj h
  | arr l es =>
      have h := stripE_clone c es
      simp only [cloneV, stripV]
      exact congrArg PVal.arr h

theorem stripF_clone (c : Nat) (fs : JFields) : stripF (cloneF c fs).1 = stripF fs := by
  cases fs with
  | fnil => simp [cloneF, stripF]
  | fcons k v r =>
      have h1 := stripV_clone c v
      have h2 := stripF_clone (cloneV c v).2 r
      simp only [cloneF, stripF]
      rw [h1, h2]

theorem stripE_clone (c : Nat) (es : JElems) : stripE (cloneE c es).1 = stripE es := by
  cases es with
  | enil => simp [cloneE, stripE]
  | econs v r =>
      have h1 := stripV_clone c v
      have h2 := stripE_clone (cloneV c v).2 r
      simp only [cloneE, stripE]
      rw [h1, h2]
end

mutual
theorem mutV_id (t : Nat) (m : Mut) (v : JVal) (h : t ∉ labelsV v) :
    mutV t m v = v := by
  cases v with
  | null => simp [mutV]
  | bool b => simp [mutV]
  | num q => simp [mutV]
  | str s => simp [mutV]
  | obj l fs =>
      simp only [labelsV, List.mem_cons, not_or] at h
      have h2 := mutF_id t m fs h.2
      simp only [mutV, h2, if_neg (Ne.symm h.1)]
  | arr l es =>
      simp only [labelsV, List.mem_cons, not_or] at h
      have h2 := mutE_id t m es h.2
      simp only [mutV, h2, if_neg (Ne.symm h.1)]

theorem mutF_id (t : Nat) (m : Mut) (fs : JFields) (h : t ∉ labelsF fs) :
    mutF t m fs = fs := by
  cases fs with
  | fnil => simp [mutF]
  | fcons k v r =>
      simp only [labelsF, List.mem_append, not_or] at h
      have h1 := mutV_id t m v h.1
      have h2 := mutF_id t m r h.2
      simp [mutF, h1, h2]

theorem mutE_id (t : Nat) (m : Mut) (es : JElems) (h : t ∉ labelsE es) :
    mutE t m es = es := by
  cases es with
  | enil => simp [mutE]
  | econs v r =>
      simp only [labelsE, List.mem_append, not_or] at h
      have h1 := mutV_id t m v h.1
      have h2 := mutE_id t m r h.2
      simp [mutE, h1, h2]
end

/-- Strict equality against a primitive is unchanged by deep cloning: the
clone of a primitive is that primitive, and a container is never strictly
equal to a primitive. -/
theorem jsEq_cloneV_prim (c : Nat) (v x : JVal) (hx : isPrim x = true) :
    jsEq (cloneV c v).1 x = jsEq v x := by
  cases v <;> cases x <;> simp_all [cloneV, jsEq, isPrim]

theorem jsEq_refl_prim (x : JVal) (hx : isPrim x = true) : jsEq x x = true := by
  cases x <;> simp_all [jsEq, isPrim]

theorem countEq_cloneE (x : JVal) (hx : isPrim x = true) (c : Nat) (es : JElems) :
    countEq (cloneE c es).1 x = countEq es x := by
  cases es with
  | enil => simp [cloneE, countEq]
  | econs v r =>
      have ih := countEq_cloneE x hx (cloneV c v).2 r
      simp only [cloneE, countEq, jsEq_cloneV_prim _ _ _ hx]
      rw [ih]

theorem anyEq_cloneE (x : JVal) (hx : isPrim x = true) (c : Nat) (es : JElems) :
    anyEq (cloneE c es).1 x = anyEq es x := by
  cases es with
  | enil => simp [cloneE, anyEq]
  | econs v r =>
      have ih := anyEq_cloneE x hx (cloneV c v).2 r
      simp only [cloneE, anyEq, jsEq_cloneV_prim _ _ _ hx]
      rw [ih]

theorem countEq_eappend (es : JElems) (x y : JVal) :
    countEq (eappend es y) x = countEq es x + (if jsEq y x then 1 else 0) := by
  cases es with
  | enil => simp [eappend, countEq]
  | econs v r =>
      have ih := countEq_eappend r x y
      simp [eappend, countEq, ih]
      omega

theorem anyEq_true_of_countEq_pos (es : JElems) (x : JVal) (h : 0 < countEq es x) :
    anyEq es x = true := by
  cases es with
  | enil => simp [countEq] at h
  | econs v r =>
      simp only [countEq] at h
      simp only [anyEq, Bool.or_eq_true]
      by_cases hv : jsEq v x = true
      · exact Or.inl hv
      · simp only [hv, if_neg] at h
        simp only [Bool.false_eq_true, if_false, zero_add] at h
        exact Or.inr (anyEq_true_of_countEq_pos r x h)

theorem countEq_eq_zero_of_anyEq_false (es : JElems) (x : JVal) (h : anyEq es x = false) :
    countEq es x = 0 := by
  cases es with
  | enil => simp [countEq]
  | econs v r =>
      simp only [anyEq, Bool.or_eq_false_iff] at h
      simp [countEq, h.1, countEq_eq_zero_of_anyEq_false r x h.2]

theorem alookup_aset_self {α : Type} (l : List (String × α)) (k : String) (v : α) :
    alookup (aset l k v) k = some v := by
  induction l with
  | nil => simp [aset, alookup]
  | cons p r ih =>
      by_cases h : p.1 = k
      · simp [aset, alookup, h]
      · simp [aset, alookup, h, ih]

theorem alookup_aset_ne {α : Type} (l : List (String × α)) (k k0 : String) (v : α)
    (h : k ≠ k0) : alookup (aset l k v) k0 = alookup l k0 := by
  induction l with
  | nil => simp [aset, alookup, h]
  | cons p r ih =>
      by_cases hp : p.1 = k
      · simp [aset, alookup, hp, h]
      · simp [aset, alookup, hp, ih]

theorem alookup_aerase_self {α : Type} (l : List (String × α)) (k : String) :
    alookup (aerase l k) k = none := by
  induction l with
  | nil => simp [aerase, alookup]
  | cons p r ih =>
      by_cases hp : p.1 = k
      · simp [aerase, hp, ih]
      · simp [aerase, alookup, hp, ih]

theorem alookup_aerase_ne {α : Type} (l : List (String × α)) (k k0 : String)
    (h : k ≠ k0) : alookup (aerase l k) k0 = alookup l k0 := by
  induction l with
  | nil => simp [aerase]
  | cons p r ih =>
      by_cases hp : p.1 = k
      · simp [aerase, alookup, hp, h, ih]
      · simp [aerase, alookup, hp, ih]

/-! Behaviour of each operation on a destroyed store. -/

theorem getNoPath_destroyed (env : Env) (st : State) (k : String)
    (h : st.isDestroyed = true) : getNoPath env st k = ⟨st, [], some .destroyed, none⟩ := by
  simp [getNoPath, readyCheck, h]

theorem hasNoPath_destroyed (env : Env) (st : State) (k : String)
    (h : st.isDestroyed = true) : hasNoPath env st k = ⟨st, [], some .destroyed, false⟩ := by
  simp [hasNoPath, readyCheck, h]

theorem getRun_destroyed (env : Env) (st : State) (k : String) (p : Option (List String))
    (h : st.isDestroyed = true) : (getRun env st k p).err = some .destroyed := by
  cases p <;> simp [getRun, getNoPath_destroyed env st k h, getWithPath, readyCheck, h]

theorem checkNoPath_destroyed (env : Env) (st : State) (k : String) (types : List String)
    (h : st.isDestroyed = true) : checkNoPath env st k types = ⟨st, [], some .destroyed⟩ := by
  simp [checkNoPath, hasNoPath_destroyed env st k h]

theorem checkRun_destroyed (env : Env) (st : State) (k : String) (types : List String)
    (p : Option (List String)) (h : st.isDestroyed = true) :
    checkRun env st k types p = ⟨st, [], some .destroyed⟩ := by
  cases p <;>
    simp [checkRun, checkNoPath_destroyed env st k _ h, checkWithPath,
      hasNoPath_destroyed env st k h]

theorem hasRun_destroyed (env : Env) (st : State) (k : String) (p : Option (List String))
    (h : st.isDestroyed = true) : (hasRun env st k p).err = some .destroyed := by
  cases p <;> simp [hasRun, hasNoPath_destroyed env st k h, readyCheck, h]

theorem setRun_destroyed (env : Env) (st : State) (k : String) (v : JVal)
    (p : Option (List String)) (h : st.isDestroyed = true) :
    (setRun env st k v p).err = some .destroyed := by
  simp [setRun, getNoPath_destroyed env st k h]

theorem deleteRun_destroyed (env : Env) (st : State) (k : String) (p : Option (List String))
    (h : st.isDestroyed = true) : (deleteRun env st k p).err = some .destroyed := by
  simp [deleteRun, readyCheck, h]

theorem pushRun_destroyed (env : Env) (st : State) (k : String) (x : JVal)
    (p : Option (List String)) (a : Bool) (h : st.isDestroyed = true) :
    (pushRun env st k x p a).err = some .destroyed := by
  simp [pushRun, getNoPath_destroyed env st k h]

theorem mathRun_destroyed (env : Env) (st : State) (k : String) (op : String) (o : Rat)
    (p : Option (List String)) (h : st.isDestroyed = true) :
    (mathRun env st k op o p).err = some .destroyed := by
  simp [mathRun, checkRun_destroyed env st k _ p h]

theorem incRun_destroyed (env : Env) (st : State) (k : String) (p : Option (List String))
    (h : st.isDestroyed = true) : (incRun env st k p).err = some .destroyed := by
  cases p <;> simp [incRun, checkRun_destroyed env st k _ _ h]

theorem decRun_destroyed (env : Env) (st : State) (k : String) (p : Option (List String))
    (h : st.isDestroyed = true) : (decRun env st k p).err = some .destroyed := by
  cases p <;> simp [decRun, checkRun_destroyed env st k _ _ h]

theorem deleteAllRun_destroyed (env : Env) (st : State) (h : st.isDestroyed = true) :
    (deleteAllRun env st).err = some .destroyed := by
  simp [deleteAllRun, readyCheck, h]

/-- C5: the claim says autonum reads the counter row, writes back
lastValue + 1 and returns it as a string, successive calls being distinct.
The code (index.ts 374-390) never projects .lastnum from the row returned
by the prepared SELECT, so it adds 1 to the row object itself: with the
counter row initialized to 0 by _init, every call returns the same string
[object Object]1 and never String(lastValue + 1) = "1" — the keys are
neither numeric successors nor distinct. -/
theorem c5_autonum_row_bug :
    (autonumRun envPers st0).1 = "[object Object]1" ∧
    (autonumRun envPers (autonumRun envPers st0).2).1 = (autonumRun envPers st0).1 ∧
    (autonumRun envPers st0).1 ≠ "1" := by
  refine ⟨rfl, rfl, ?_⟩
  decide

/-- C7: the claim says delete(key, path) removes the addressed leaf and
re-persists the container.  The path branch of delete (index.ts 596-611)
reaches `if (isArray(propValue))` where isArray is a free identifier (it is
never imported; the file elsewhere uses Array.isArray), so the call always
throws a ReferenceError and the stored container is left untouched:
deleting the leaf a of the object stored at obj fails and removes
nothing. -/
theorem c7_delete_path_reference_error :
    (deleteRun envMem stObj "obj" (some ["a"])).err = some .refErr ∧
    alookup (deleteRun envMem stObj "obj" (some ["a"])).st.cache "obj"
      = some (.obj 0 (.fcons "a" (.num 1) (.fcons "b" (.num 2) .fnil))) := by
  exact ⟨rfl, rfl⟩

/-- C8 (amended): destroy performs deleteAll, marks the store destroyed and
drops the table and counter row; every subsequent operation that performs a
ready check — get, has, set, delete, push, math, inc, dec, deleteAll —
fails with a DestroyedError, but evict performs no such check and succeeds
on a destroyed store. -/
theorem c8_destroy_ready_checks (env : Env) (st : State) (hp : env.persistent = true)
    (hdb : env.dbOk = true) (hd : st.isDestroyed = false) :
    (destroyRun env st).err = none ∧
    (destroyRun env st).st.isDestroyed = true ∧
    (destroyRun env st).st.cache = [] ∧
    (destroyRun env st).st.db = [] ∧
    (destroyRun env st).st.counterRow = none ∧
    (∀ k p, (getRun env (destroyRun env st).st k p).err = some .destroyed) ∧
    (∀ k p, (hasRun env (destroyRun env st).st k p).err = some .destroyed) ∧
    (∀ k v p, (setRun env (destroyRun env st).st k v p).err = some .destroyed) ∧
    (∀ k p, (deleteRun env (destroyRun env st).st k p).err = some .destroyed) ∧
    (∀ k x p a, (pushRun env (destroyRun env st).st k x p a).err = some .destroyed) ∧
    (∀ k op o p, (mathRun env (destroyRun env st).st k op o p).err = some .destroyed) ∧
    (∀ k p, (incRun env (destroyRun env st).st k p).err = some .destroyed) ∧
    (∀ k p, (decRun env (destroyRun env st).st k p).err = some .destroyed) ∧
    (deleteAllRun env (destroyRun env st).st).err = some .destroyed ∧
    (∀ k, (evictRun (destroyRun env st).st k).err = none) := by
  have hst : (destroyRun env st).st.isDestroyed = true := by
    simp [destroyRun, deleteAllRun, readyCheck, hd, hp, hdb]
  refine ⟨?_, hst, ?_, ?_, ?_, ?_, ?_, ?_, ?_, ?_, ?_, ?_, ?_, ?_, ?_⟩
  · simp [destroyRun, deleteAllRun, readyCheck, hd, hp, hdb]
  · simp [destroyRun, deleteAllRun, readyCheck, hd, hp, hdb]
  · simp [destroyRun, deleteAllRun, readyCheck, hd, hp, hdb]
  · simp [destroyRun, deleteAllRun, readyCheck, hd, hp, hdb]
  · exact fun k p => getRun_destroyed env _ k p hst
  · exact fun k p => hasRun_destroyed env _ k p hst
  · exact fun k v p => setRun_destroyed env _ k v p hst
  · exact fun k p => deleteRun_destroyed env _ k p hst
  · exact fun k x p a => pushRun_destroyed env _ k x p a hst
  · exact fun k op o p => mathRun_destroyed env _ k op o p hst
  · exact fun k p => incRun_destroyed env _ k p hst
  · exact fun k p => decRun_destroyed env _ k p hst
  · exact deleteAllRun_destroyed env _ hst
  · exact fun k => rfl

/-- C8 witness: the amended destroy behaviour at a concrete persistent
store. -/
theorem c8_destroy_ready_checks_witness :
    envPers.persistent = true ∧ envPers.dbOk = true ∧ stP.isDestroyed = false ∧
    ((destroyRun envPers stP).err = none ∧
     (destroyRun envPers stP).st.isDestroyed = true ∧
     (destroyRun envPers stP).st.cache = [] ∧
     (destroyRun envPers stP).st.db = [] ∧
     (destroyRun envPers stP).st.counterRow = none ∧
     (∀ k p, (getRun envPers (destroyRun envPers stP).st k p).err = some .destroyed) ∧
     (∀ k p, (hasRun envPers (destroyRun envPers stP).st k p).err = some .destroyed) ∧
     (∀ k v p, (setRun envPers (destroyRun envPers stP).st k v p).err = some .destroyed) ∧
     (∀ k p, (deleteRun envPers (destroyRun envPers stP).st k p).err = some .destroyed) ∧
     (∀ k x p a, (pushRun envPers (destroyRun envPers stP).st k x p a).err = some .destroyed) ∧
     (∀ k op o p, (mathRun envPers (destroyRun envPers stP).st k op o p).err = some .destroyed) ∧
     (∀ k p, (incRun envPers (destroyRun envPers stP).st k p).err = some .destroyed) ∧
     (∀ k p, (decRun envPers (destroyRun envPers stP).st k p).err = some .destroyed) ∧
     (deleteAllRun envPers (destroyRun envPers stP).st).err = some .destroyed ∧
     (∀ k, (evictRun (destroyRun envPers stP).st k).err = none)) :=
  ⟨rfl, rfl, rfl, c8_destroy_ready_checks envPers stP rfl rfl rfl⟩

/-- C8 counterexample: the claim as stated says every subsequent operation
on a destroyed store fails with a DestroyedError, but evict performs no
ready check: after destroying a concrete persistent store, evict returns
without any error. -/
theorem c8_evict_after_destroy :
    (destroyRun envPers stP).st.isDestroyed = true ∧
    (evictRun (destroyRun envPers stP).st "k").err = none := ⟨rfl, rfl⟩

theorem fetchCheck_present (env : Env) (st : State) (k : String) (d : JVal)
    (hk : alookup st.cache k = some d) : fetchCheck env st k = (st, []) := by
  simp [fetchCheck, hk]

theorem fetchCheck_nodata (env : Env) (st : State) (k : String)
    (hk : alookup st.cache k = none) (hdbk : alookup st.db k = none) :
    fetchCheck env st k = (st, []) := by
  simp only [fetchCheck, hk, Option.isSome_none, Bool.false_eq_true, if_false]
  split
  · simp [fetchOne, hdbk]
  · rfl

theorem hasNoPath_present (env : Env) (st : State) (k : String) (d : JVal)
    (hd : st.isDestroyed = false) (hk : alookup st.cache k = some d) :
    hasNoPath env st k = ⟨st, [], none, true⟩ := by
  simp [hasNoPath, readyCheck, hd, fetchCheck_present env st k d hk, hk]

theorem hasNoPath_nodata (env : Env) (st : State) (k : String)
    (hd : st.isDestroyed = false) (hk : alookup st.cache k = none)
    (hdbk : alookup st.db k = none) : hasNoPath env st k = ⟨st, [], none, false⟩ := by
  simp [hasNoPath, readyCheck, hd, fetchCheck_nodata env st k hk hdbk, hk]

theorem getNoPath_present (env : Env) (st : State) (k : String) (d : JVal)
    (hd : st.isDestroyed = false) (hk : alookup st.cache k = some d) :
    getNoPath env st k =
      ⟨{ st with ctr := (cloneV st.ctr d).2 }, [], none, some (cloneV st.ctr d).1⟩ := by
  simp [getNoPath, readyCheck, hd, fetchCheck_present env st k d hk,
    hasNoPath_present env st k d hd hk, hk]

/-- Materialization of a truthy default on a cache-and-table miss
(index.ts 250-252): the default is written through _internalSet (cache and,
for a persistent store, backing store), then read back as a deep clone. -/
theorem getNoPath_absent_default (env : Env) (st : State) (k : String)
    (hd : st.isDestroyed = false) (hdef : jsTruthy env.defaultVal = true)
    (hk : alookup st.cache k = none) (hdbk : alookup st.db k = none)
    (hs : ∃ s, env.encode env.defaultVal = Except.ok s) (hdb : env.dbOk = true) :
    (getNoPath env st k).err = none ∧
    (getNoPath env st k).val = some (cloneV st.ctr env.defaultVal).1 ∧
    alookup (getNoPath env st k).st.cache k = some env.defaultVal ∧
    (getNoPath env st k).st.isDestroyed = false ∧
    (env.persistent = true →
      ∃ s, env.encode env.defaultVal = Except.ok s ∧
        alookup (getNoPath env st k).st.db k = some s) := by
  have hf := fetchCheck_nodata env st k hk hdbk
  have hh := hasNoPath_nodata env st k hd hk hdbk
  rcases hs with ⟨s, hsenc⟩
  cases hp : env.persistent with
  | false =>
      have hi : internalSetEx env st k env.defaultVal true
          = ⟨{ st with cache := aset st.cache k env.defaultVal },
             [.cacheWrite k env.defaultVal], none⟩ := by
        simp [internalSetEx, hp]
      simp [getNoPath, readyCheck, hd, hf, hh, hdef, hi, alookup_aset_self, hp]
  | true =>
      have hi : internalSetEx env st k env.defaultVal true
          = ⟨{ st with db := aset st.db k s, cache := aset st.cache k env.defaultVal },
             [.encodeEv k, .dbWrite k s, .cacheWrite k env.defaultVal], none⟩ := by
        simp [internalSetEx, hp, hsenc, hdb]
      simp [getNoPath, readyCheck, hd, hf, hh, hdef, hi, alookup_aset_self, hp, hsenc]

/-- C1 (amended): for every store whose default value is truthy — which
includes every store constructed without a configured default, since the
constructor falls back to the (truthy) empty object — get of an absent key
materializes the default through the internal write path (cache and, for
persistent stores, backing store) and returns it structurally, after which
has(key) is true; get of an absent key returns absent only when the
configured default is falsy.  The concrete scenario holds: with default
a = 1, b = 2, get(missing) returns that object, has(missing) is then
true, and after set(missing, X, a) a get(missing) returns a = X, b = 2. -/
theorem c1_default_materialized :
    (∀ env st k, st.isDestroyed = false → jsTruthy env.defaultVal = true →
      alookup st.cache k = none → alookup st.db k = none →
      (∃ s, env.encode env.defaultVal = Except.ok s) → env.dbOk = true →
      (getNoPath env st k).err = none ∧
      stripOpt (getNoPath env st k).val = some (stripV env.defaultVal) ∧
      alookup (getNoPath env st k).st.cache k = some env.defaultVal ∧
      (hasRun env (getNoPath env st k).st k none).err = none ∧
      (hasRun env (getNoPath env st k).st k none).val = true ∧
      (env.persistent = true →
        ∃ s, env.encode env.defaultVal = Except.ok s ∧
          alookup (getNoPath env st k).st.db k = some s)) ∧
    (∀ env st k, st.isDestroyed = false → jsTruthy env.defaultVal = false →
      alookup st.cache k = none → alookup st.db k = none →
      (getNoPath env st k).err = none ∧ (getNoPath env st k).val = none ∧
      alookup (getNoPath env st k).st.cache k = none) ∧
    (stripOpt (getRun envDef st0 "missing" none).val
        = some (.obj [("a", .num 1), ("b", .num 2)]) ∧
     (hasRun envDef (getRun envDef st0 "missing" none).st "missing" none).val = true ∧
     stripOpt (getRun envDef
         (setRun envDef (getRun envDef st0 "missing" none).st "missing" (.str "X")
           (some ["a"])).st "missing" none).val
        = some (.obj [("a", .str "X"), ("b", .num 2)])) := by
  refine ⟨?_, ?_, rfl, rfl, rfl⟩
  · intro env st k hd hdef hk hdbk hs hdb
    obtain ⟨he, hv, hc, hdes, hper⟩ :=
      getNoPath_absent_default env st k hd hdef hk hdbk hs hdb
    refine ⟨he, ?_, hc, ?_, ?_, hper⟩
    · rw [hv]
      simp [stripOpt, stripV_clone]
    · simp [hasRun, hasNoPath, readyCheck, hdes,
        fetchCheck_present env _ k _ hc]
    · simp [hasRun, hasNoPath, readyCheck, hdes,
        fetchCheck_present env _ k _ hc, hc]
  · intro env st k hd hdef hk hdbk
    have hf := fetchCheck_nodata env st k hk hdbk
    have hh := hasNoPath_nodata env st k hd hk hdbk
    simp [getNoPath, readyCheck, hd, hf, hh, hdef, hk]

/-- C1 witness: the general materialization part applied to the concrete
store with default a = 1, b = 2 and the absent key missing. -/
theorem c1_default_materialized_witness :
    (st0.isDestroyed = false ∧ jsTruthy envDef.defaultVal = true ∧
     alookup st0.cache "missing" = none ∧ alookup st0.db "missing" = none ∧
     envDef.dbOk = true) ∧
    ((getNoPath envDef st0 "missing").err = none ∧
     stripOpt (getNoPath envDef st0 "missing").val = some (stripV envDef.defaultVal) ∧
     alookup (getNoPath envDef st0 "missing").st.cache "missing" = some envDef.defaultVal ∧
     (hasRun envDef (getNoPath envDef st0 "missing").st "missing" none).err = none ∧
     (hasRun envDef (getNoPath envDef st0 "missing").st "missing" none).val = true ∧
     (envDef.persistent = true →
       ∃ s, envDef.encode envDef.defaultVal = Except.ok s ∧
         alookup (getNoPath envDef st0 "missing").st.db "missing" = some s)) :=
  ⟨⟨rfl, rfl, rfl, rfl, rfl⟩,
   c1_default_materialized.1 envDef st0 "missing" rfl rfl rfl rfl ⟨"e", rfl⟩ rfl⟩

/-- C1 counterexample: the claim as stated says that a store with no
configured default returns absent for a get of an absent key.  The
constructor sets the default of such a store to the empty object, which is
truthy, so get(missing) on the concrete optionless memory store returns
the materialized empty object — not absent — and has(missing) is true
afterwards. -/
theorem c1_no_default_still_materializes :
    stripOpt (getRun envMem st0 "missing" none).val = some (.obj []) ∧
    (hasRun envMem (getRun envMem st0 "missing" none).st "missing" none).val = true :=
  ⟨rfl, rfl⟩

theorem fetchCheck_miss_nonpersistent (env : Env) (st : State) (k : String)
    (hk : alookup st.cache k = none) (hp : env.persistent = false) :
    fetchCheck env st k = (st, []) := by
  simp [fetchCheck, hk, hp]

/-- C6: delete(key) with no path removes the entry from the in-memory map
and, for a persistent store, runs the backing-store DELETE; the change
callback is invoked with newValue absent for non-persistent stores only
(the persistent branch returns before the callback); and has(key)
afterwards is false. -/
theorem c6_delete_removes_entry (env : Env) (st : State) (k : String) (d : JVal)
    (hd : st.isDestroyed = false) (hk : alookup st.cache k = some d)
    (hdb : env.dbOk = true) :
    (deleteRun env st k none).err = none ∧
    alookup (deleteRun env st k none).st.cache k = none ∧
    (env.persistent = true →
      alookup (deleteRun env st k none).st.db k = none ∧
      ∀ e ∈ (deleteRun env st k none).tr, isNotify e = false) ∧
    (env.persistent = false → env.hasChangedCB = true →
      ∃ old, Event.notify k old none ∈ (deleteRun env st k none).tr) ∧
    (hasRun env (deleteRun env st k none).st k none).err = none ∧
    (hasRun env (deleteRun env st k none).st k none).val = false := by
  have hg := getNoPath_present env st k d hd hk
  have hf := fetchCheck_present env st k d hk
  cases hp : env.persistent with
  | true =>
      have hres : deleteRun env st k none =
          ⟨{ st with
              ctr := (cloneV st.ctr d).2,
              cache := aerase st.cache k,
              db := aerase st.db k },
           [.cacheDelete k, .dbDelete k], none⟩ := by
        simp [deleteRun, readyCheck, hd, hf, hg, hp, hdb]
      rw [hres]
      refine ⟨rfl, alookup_aerase_self _ _,
        fun _ => ⟨alookup_aerase_self _ _, by simp [isNotify]⟩, ?_, ?_, ?_⟩
      · intro hcon
        simp at hcon
      · simp [hasRun, hasNoPath, readyCheck, hd, fetchCheck, fetchOne, alookup_aerase_self]
      · simp [hasRun, hasNoPath, readyCheck, hd, fetchCheck, fetchOne, alookup_aerase_self]
  | false =>
      cases hcb : env.hasChangedCB with
      | true =>
          have hres : deleteRun env st k none =
              ⟨{ st with ctr := (cloneV st.ctr d).2, cache := aerase st.cache k },
               [.cacheDelete k, .notify k (some (cloneV st.ctr d).1) none], none⟩ := by
            simp [deleteRun, readyCheck, hd, hf, hg, hp, hcb]
          rw [hres]
          refine ⟨rfl, alookup_aerase_self _ _, ?_,
            fun _ _ => ⟨some (cloneV st.ctr d).1, by simp⟩, ?_, ?_⟩
          · intro hcon
            simp at hcon
          · simp [hasRun, hasNoPath, readyCheck, hd, fetchCheck, fetchOne, hp,
              alookup_aerase_self]
          · simp [hasRun, hasNoPath, readyCheck, hd, fetchCheck, fetchOne, hp,
              alookup_aerase_self]
      | false =>
          have hres : deleteRun env st k none =
              ⟨{ st with ctr := (cloneV st.ctr d).2, cache := aerase st.cache k },
               [.cacheDelete k], none⟩ := by
            simp [deleteRun, readyCheck, hd, hf, hg, hp, hcb]
          rw [hres]
          refine ⟨rfl, alookup_aerase_self _ _, ?_, ?_, ?_, ?_⟩
          · intro hcon
            simp at hcon
          · intro _ hcon
            simp at hcon
          · simp [hasRun, hasNoPath, readyCheck, hd, fetchCheck, fetchOne, hp,
              alookup_aerase_self]
          · simp [hasRun, hasNoPath, readyCheck, hd, fetchCheck, fetchOne, hp,
              alookup_aerase_self]

/-- C6 witness: deleting the present key k of a concrete persistent store. -/
theorem c6_delete_removes_entry_witness :
    (stP.isDestroyed = false ∧ alookup stP.cache "k" = some (.num 1) ∧
     envPers.dbOk = true) ∧
    ((deleteRun envPers stP "k" none).err = none ∧
     alookup (deleteRun envPers stP "k" none).st.cache "k" = none ∧
     (envPers.persistent = true →
       alookup (deleteRun envPers stP "k" none).st.db "k" = none ∧
       ∀ e ∈ (deleteRun envPers stP "k" none).tr, isNotify e = false) ∧
     (envPers.persistent = false → envPers.hasChangedCB = true →
       ∃ old, Event.notify "k" old none ∈ (deleteRun envPers stP "k" none).tr) ∧
     (hasRun envPers (deleteRun envPers stP "k" none).st "k" none).err = none ∧
     (hasRun envPers (deleteRun envPers stP "k" none).st "k" none).val = false) :=
  ⟨⟨rfl, rfl, rfl⟩, c6_delete_removes_entry envPers stP "k" (.num 1) rfl rfl rfl⟩

/-- C2 (amended): for every set(key, value, path?) on any store with a
registered change callback and a key present in the cache, the Change
Notifier is invoked synchronously with (key, oldValueClone, newValue)
strictly BEFORE the backing-store and in-memory writes of that operation:
the notify event heads the trace, no other notify occurs, the old argument
is structurally the previously stored value, the new argument is the value
the operation then commits (equal to value itself when no path is given),
and every write — the cache write, and for persistent stores the
backing-store write — comes after it in the trace (the callback at
index.ts 182-184 runs before _internalSet at 185 and the cache write at
186); being single-threaded, it still completes before the next operation
begins. -/
theorem c2_notify_precedes_writes (env : Env) (st : State) (k : String) (v : JVal)
    (p : Option (List String)) (d : JVal)
    (hd : st.isDestroyed = false) (hk : alookup st.cache k = some d)
    (hcb : env.hasChangedCB = true)
    (hs : ∀ w, ∃ s, env.encode w = Except.ok s) (hdbk : env.dbOk = true) :
    (setRun env st k v p).err = none ∧
    ∃ old nd rest,
      (setRun env st k v p).tr = Event.notify k (some old) (some nd) :: rest ∧
      (∀ e ∈ rest, isNotify e = false) ∧
      stripV old = stripV d ∧
      (p = none → nd = v) ∧
      (∃ nv, Event.cacheWrite k nv ∈ rest ∧ stripV nv = stripV nd ∧
        alookup (setRun env st k v p).st.cache k = some nv) ∧
      (env.persistent = true →
        ∃ s, Event.dbWrite k s ∈ rest ∧ alookup (setRun env st k v p).st.db k = some s) ∧
      (env.persistent = false → (setRun env st k v p).st.db = st.db) := by
  have hg := getNoPath_present env st k d hd hk
  cases hp : env.persistent with
  | true =>
      cases p with
      | none =>
          obtain ⟨s, hsv⟩ := hs v
          have hres : setRun env st k v none =
              ⟨{ st with
                  ctr := (cloneV ((cloneV (cloneV st.ctr d).2 (cloneV st.ctr d).1).2) v).2,
                  db := aset st.db k s,
                  cache := aset st.cache k
                    (cloneV ((cloneV (cloneV st.ctr d).2 (cloneV st.ctr d).1).2) v).1 },
               [.notify k (some (cloneV (cloneV st.ctr d).2 (cloneV st.ctr d).1).1)
                  (some v),
                .encodeEv k, .dbWrite k s,
                .cacheWrite k
                  (cloneV ((cloneV (cloneV st.ctr d).2 (cloneV st.ctr d).1).2) v).1],
               none⟩ := by
            simp [setRun, hg, hk, internalSetEx, hp, hsv, hdbk, hcb]
          rw [hres]
          refine ⟨rfl, _, _, _, rfl, by simp [isNotify], ?_, fun _ => rfl,
            ⟨_, by simp, stripV_clone _ _, alookup_aset_self _ _ _⟩,
            fun _ => ⟨s, by simp, alookup_aset_self _ _ _⟩, ?_⟩
          · rw [stripV_clone, stripV_clone]
          · intro hcon
            simp at hcon
      | some segs =>
          obtain ⟨s, hsv⟩ := hs
            (pathSet ((cloneV (cloneV st.ctr d).2 (cloneV st.ctr d).1).2)
              (cloneV st.ctr d).1 segs v).1
          have hres : setRun env st k v (some segs) =
              ⟨{ st with
                  ctr := (cloneV
                    ((pathSet ((cloneV (cloneV st.ctr d).2 (cloneV st.ctr d).1).2)
                      (cloneV st.ctr d).1 segs v).2)
                    ((pathSet ((cloneV (cloneV st.ctr d).2 (cloneV st.ctr d).1).2)
                      (cloneV st.ctr d).1 segs v).1)).2,
                  db := aset st.db k s,
                  cache := aset st.cache k
                    (cloneV
                      ((pathSet ((cloneV (cloneV st.ctr d).2 (cloneV st.ctr d).1).2)
                        (cloneV st.ctr d).1 segs v).2)
                      ((pathSet ((cloneV (cloneV st.ctr d).2 (cloneV st.ctr d).1).2)
                        (cloneV st.ctr d).1 segs v).1)).1 },
               [.notify k (some (cloneV (cloneV st.ctr d).2 (cloneV st.ctr d).1).1)
                  (some ((pathSet ((cloneV (cloneV st.ctr d).2 (cloneV st.ctr d).1).2)
                    (cloneV st.ctr d).1 segs v).1)),
                .encodeEv k, .dbWrite k s,
                .cacheWrite k
                  (cloneV
                    ((pathSet ((cloneV (cloneV st.ctr d).2 (cloneV st.ctr d).1).2)
                      (cloneV st.ctr d).1 segs v).2)
                    ((pathSet ((cloneV (cloneV st.ctr d).2 (cloneV st.ctr d).1).2)
                      (cloneV st.ctr d).1 segs v).1)).1],
               none⟩ := by
            simp [setRun, hg, hk, internalSetEx, hp, hsv, hdbk, hcb]
          rw [hres]
          refine ⟨rfl, _, _, _, rfl, by simp [isNotify], ?_, ?_,
            ⟨_, by simp, stripV_clone _ _, alookup_aset_self _ _ _⟩,
            fun _ => ⟨s, by simp, alookup_aset_self _ _ _⟩, ?_⟩
          · rw [stripV_clone, stripV_clone]
          · intro hcon
            cases hcon
          · intro hcon
            simp at hcon
  | false =>
      cases p with
      | none =>
          have hres : setRun env st k v none =
              ⟨{ st with
                  ctr := (cloneV ((cloneV (cloneV st.ctr d).2 (cloneV st.ctr d).1).2) v).2,
                  cache := aset st.cache k
                    (cloneV ((cloneV (cloneV st.ctr d).2 (cloneV st.ctr d).1).2) v).1 },
               [.notify k (some (cloneV (cloneV st.ctr d).2 (cloneV st.ctr d).1).1)
                  (some v),
                .cacheWrite k
                  (cloneV ((cloneV (cloneV st.ctr d).2 (cloneV st.ctr d).1).2) v).1],
               none⟩ := by
            simp [setRun, hg, hk, internalSetEx, hp, hcb]
          rw [hres]
          refine ⟨rfl, _, _, _, rfl, by simp [isNotify], ?_, fun _ => rfl,
            ⟨_, by simp, stripV_clone _ _, alookup_aset_self _ _ _⟩, ?_, fun _ => rfl⟩
          · rw [stripV_clone, stripV_clone]
          · intro hcon
            simp at hcon
      | some segs =>
          have hres : setRun env st k v (some segs) =
              ⟨{ st with
                  ctr := (cloneV
                    ((pathSet ((cloneV (cloneV st.ctr d).2 (cloneV st.ctr d).1).2)
                      (cloneV st.ctr d).1 segs v).2)
                    ((pathSet ((cloneV (cloneV st.ctr d).2 (cloneV st.ctr d).1).2)
                      (cloneV st.ctr d).1 segs v).1)).2,
                  cache := aset st.cache k
                    (cloneV
                      ((pathSet ((cloneV (cloneV st.ctr d).2 (cloneV st.ctr d).1).2)
                        (cloneV st.ctr d).1 segs v).2)
                      ((pathSet ((cloneV (cloneV st.ctr d).2 (cloneV st.ctr d).1).2)
                        (cloneV st.ctr d).1 segs v).1)).1 },
               [.notify k (some (cloneV (cloneV st.ctr d).2 (cloneV st.ctr d).1).1)
                  (some ((pathSet ((cloneV (cloneV st.ctr d).2 (cloneV st.ctr d).1).2)
                    (cloneV st.ctr d).1 segs v).1)),
                .cacheWrite k
                  (cloneV
                    ((pathSet ((cloneV (cloneV st.ctr d).2 (cloneV st.ctr d).1).2)
                      (cloneV st.ctr d).1 segs v).2)
                    ((pathSet ((cloneV (cloneV st.ctr d).2 (cloneV st.ctr d).1).2)
                      (cloneV st.ctr d).1 segs v).1)).1],
               none⟩ := by
            simp [setRun, hg, hk, internalSetEx, hp, hcb]
          rw [hres]
          refine ⟨rfl, _, _, _, rfl, by simp [isNotify], ?_, ?_,
            ⟨_, by simp, stripV_clone _ _, alookup_aset_self _ _ _⟩, ?_, fun _ => rfl⟩
          · rw [stripV_clone, stripV_clone]
          · intro hcon
            cases hcon
          · intro hcon
            simp at hcon

/-- C2 witness: the amended ordering applied at a concrete persistent store
with a callback, a present key, a number write and no path. -/
theorem c2_notify_precedes_writes_witness :
    (stP.isDestroyed = false ∧ alookup stP.cache "k" = some (.num 1) ∧
     envPersCB.hasChangedCB = true ∧ envPersCB.dbOk = true) ∧
    ((setRun envPersCB stP "k" (.num 2) none).err = none ∧
     ∃ old nd rest,
       (setRun envPersCB stP "k" (.num 2) none).tr
         = Event.notify "k" (some old) (some nd) :: rest ∧
       (∀ e ∈ rest, isNotify e = false) ∧
       stripV old = stripV (.num 1) ∧
       ((none : Option (List String)) = none → nd = .num 2) ∧
       (∃ nv, Event.cacheWrite "k" nv ∈ rest ∧ stripV nv = stripV nd ∧
         alookup (setRun envPersCB stP "k" (.num 2) none).st.cache "k" = some nv) ∧
       (envPersCB.persistent = true →
         ∃ s, Event.dbWrite "k" s ∈ rest ∧
           alookup (setRun envPersCB stP "k" (.num 2) none).st.db "k" = some s) ∧
       (envPersCB.persistent = false →
         (setRun envPersCB stP "k" (.num 2) none).st.db = stP.db)) :=
  ⟨⟨rfl, rfl, rfl, rfl⟩,
   c2_notify_precedes_writes envPersCB stP "k" (.num 2) none (.num 1) rfl rfl rfl
     (fun _ => ⟨"e", rfl⟩) rfl⟩

/-- C2 counterexample: the claim says the notifier fires strictly after the
write for the operation has committed.  On a concrete persistent store with
a callback, the full event trace of set(k, 2) is notify first, then the
encode, the backing-store write and the in-memory commit — the notifier
fires before, not after, both writes. -/
theorem c2_notify_fires_first :
    (setRun envPersCB stP "k" (.num 2) none).tr =
      [.notify "k" (some (.num 1)) (some (.num 2)), .encodeEv "k",
       .dbWrite "k" "e", .cacheWrite "k" (.num 2)] := rfl

/-- C3 (amended): the internal single-key write path (_internalSet, used by
set, push, inc, dec, update and import) orders its steps encode, then
persist, then commit to cache, and leaves the cache untouched whenever
encoding or persistence throws.  delete, however, removes the entry from
the cache BEFORE running the backing-store DELETE (index.ts 613-615), so a
failing delete statement leaves the entry evicted from the cache but still
present in the backing store. -/
theorem c3_write_ordering :
    (∀ (env : Env) (st : State) (k : String) (v : JVal) (uc : Bool),
      env.persistent = true → (internalSetEx env st k v uc).err.isSome = true →
      (internalSetEx env st k v uc).st.cache = st.cache) ∧
    (∀ (env : Env) (st : State) (k : String) (v : JVal) (uc : Bool),
      env.persistent = true → (internalSetEx env st k v uc).err = none →
      ∃ s, (internalSetEx env st k v uc).tr
        = .encodeEv k :: .dbWrite k s :: (if uc then [.cacheWrite k v] else [])) ∧
    (∀ (env : Env) (st : State) (k : String) (d : JVal),
      st.isDestroyed = false → alookup st.cache k = some d →
      env.persistent = true → env.dbOk = false →
      (deleteRun env st k none).err = some .dbErr ∧
      alookup (deleteRun env st k none).st.cache k = none ∧
      (deleteRun env st k none).st.db = st.db) := by
  refine ⟨?_, ?_, ?_⟩
  · intro env st k v uc hp herr
    simp only [internalSetEx, hp, if_pos] at herr ⊢
    rcases hsv : (match env.encode v with
                  | .ok s => some s
                  | .error _ => (env.encodeFB v).toOption) with _ | s
    · simp [hsv]
    · simp only [hsv] at herr ⊢
      cases hdb : env.dbOk with
      | true => simp [hdb] at herr; cases uc <;> simp_all
      | false => simp [hdb]
  · intro env st k v uc hp herr
    simp only [internalSetEx, hp, if_pos] at herr ⊢
    rcases hsv : (match env.encode v with
                  | .ok s => some s
                  | .error _ => (env.encodeFB v).toOption) with _ | s
    · simp [hsv] at herr
    · simp only [hsv] at herr ⊢
      cases hdb : env.dbOk with
      | true => exact ⟨s, by cases uc <;> simp [hdb]⟩
      | false => simp [hdb] at herr
  · intro env st k d hd hk hp hdb
    have hg := getNoPath_present env st k d hd hk
    have hres : deleteRun env st k none =
        ⟨{ st with ctr := (cloneV st.ctr d).2, cache := aerase st.cache k },
         [.cacheDelete k], some .dbErr⟩ := by
      simp [deleteRun, readyCheck, hd, fetchCheck_present env st k d hk, hg, hp, hdb]
    rw [hres]
    exact ⟨rfl, alookup_aerase_self _ _, rfl⟩

/-- C3 witness: the divergence part of the amended claim at a concrete
persistent store whose DELETE statement fails. -/
theorem c3_write_ordering_witness :
    (stP.isDestroyed = false ∧ alookup stP.cache "k" = some (.num 1) ∧
     envPersBad.persistent = true ∧ envPersBad.dbOk = false) ∧
    ((deleteRun envPersBad stP "k" none).err = some .dbErr ∧
     alookup (deleteRun envPersBad stP "k" none).st.cache "k" = none ∧
     (deleteRun envPersBad stP "k" none).st.db = stP.db) :=
  ⟨⟨rfl, rfl, rfl, rfl⟩,
   c3_write_ordering.2.2 envPersBad stP "k" (.num 1) rfl rfl rfl rfl⟩

/-- C3 counterexample: the claim says that when persistence throws, the
in-memory cache is left unchanged (no state where cache and backing store
diverge).  Deleting the present key k of a concrete persistent store whose
DELETE statement fails throws, yet the entry is already gone from the
cache while the backing-store row survives — the cache changed and the two
stores diverge. -/
theorem c3_delete_cache_before_persist :
    (deleteRun envPersBad stP "k" none).err = some .dbErr ∧
    alookup (deleteRun envPersBad stP "k" none).st.cache "k" = none ∧
    alookup (deleteRun envPersBad stP "k" none).st.db "k" = some "e" :=
  ⟨rfl, rfl, rfl⟩

theorem typeName_cloneV (c : Nat) (v : JVal) : typeName (cloneV c v).1 = typeName v := by
  cases v <;> simp [cloneV, typeName]

theorem checkNoPath_present (env : Env) (st : State) (k : String) (d : JVal)
    (tn : String) (types : List String) (hd : st.isDestroyed = false)
    (hk : alookup st.cache k = some d) (htn : typeName d = some tn)
    (hmem : tn ∈ types) :
    checkNoPath env st k types = ⟨{ st with ctr := (cloneV st.ctr d).2 }, [], none⟩ := by
  have hh := hasNoPath_present env st k d hd hk
  have hg := getNoPath_present env st k d hd hk
  simp [checkNoPath, hh, hg, typeName_cloneV, htn, hmem]

theorem internalSetEx_ok (env : Env) (st : State) (k : String) (v : JVal) (uc : Bool)
    (hs : ∃ s, env.encode v = Except.ok s) (hdb : env.dbOk = true) :
    (internalSetEx env st k v uc).err = none ∧
    (internalSetEx env st k v uc).st.cache
      = (if uc then aset st.cache k v else st.cache) ∧
    (internalSetEx env st k v uc).st.ctr = st.ctr ∧
    (internalSetEx env st k v uc).st.isDestroyed = st.isDestroyed ∧
    (env.persistent = true →
      ∃ s, alookup (internalSetEx env st k v uc).st.db k = some s) ∧
    (env.persistent = false → (internalSetEx env st k v uc).st.db = st.db) := by
  rcases hs with ⟨s, hs⟩
  cases hp : env.persistent <;> cases uc <;>
    simp [internalSetEx, hp, hs, hdb, alookup_aset_self]

theorem countEq_pos_of_anyEq (es : JElems) (x : JVal) (h : anyEq es x = true) :
    0 < countEq es x := by
  cases es with
  | enil => simp [anyEq] at h
  | econs v r =>
      simp only [anyEq, Bool.or_eq_true] at h
      rcases h with h | h
      · simp [countEq, h]
      · have := countEq_pos_of_anyEq r x h
        simp only [countEq]
        omega

theorem mutState_id (st : State) (t : Nat) (m : Mut)
    (h : ∀ p ∈ st.cache, t ∉ labelsV p.2) : mutState t m st = st := by
  have hmap : st.cache.map (fun p => (p.1, mutV t m p.2)) = st.cache := by
    have h2 : ∀ p ∈ st.cache, (p.1, mutV t m p.2) = p := by
      intro p hp
      rw [mutV_id t m p.2 (h p hp)]
    calc st.cache.map (fun p => (p.1, mutV t m p.2))
        = st.cache.map id := List.map_congr_left h2
      _ = st.cache := List.map_id st.cache
  simp [mutState, hmap]

/-- C4 (amended): under the hard-coded deep clone level, the value returned
by get WITHOUT a path is a fresh deep clone: none of its container labels
occurs anywhere among the retained cached values (it is never the same
mutable object as the internally retained copy, at any depth), so mutating
any part of it leaves every cached value — and hence the result of any
later get on the same key — unchanged.  A value returned by get WITH a
path, by contrast, is the raw retained subtree (index.ts 253-257 performs
no clone), so mutating it does change later reads. -/
theorem c4_deep_get_isolated (env : Env) (st : State) (k : String) (d : JVal)
    (hwf : wfCache st = true) (hd : st.isDestroyed = false)
    (hk : alookup st.cache k = some d) :
    (getNoPath env st k).err = none ∧
    (getNoPath env st k).val = some (cloneV st.ctr d).1 ∧
    (∀ t ∈ labelsV (cloneV st.ctr d).1,
      stateHasLabel (getNoPath env st k).st t = false) ∧
    stripOpt (getNoPath env (getNoPath env st k).st k).val = some (stripV d) ∧
    (∀ t ∈ labelsV (cloneV st.ctr d).1, ∀ m : Mut,
      mutState t m (getNoPath env st k).st = (getNoPath env st k).st ∧
      stripOpt (getNoPath env (mutState t m (getNoPath env st k).st) k).val
        = stripOpt (getNoPath env (getNoPath env st k).st k).val) := by
  have hg := getNoPath_present env st k d hd hk
  have hwf2 : ∀ p ∈ st.cache, ∀ u ∈ labelsV p.2, u < st.ctr := by
    intro p hp u hu
    have := (List.all_eq_true.mp hwf) p hp
    have := (List.all_eq_true.mp this) u hu
    exact of_decide_eq_true this
  have hfresh : ∀ t ∈ labelsV (cloneV st.ctr d).1, ∀ p ∈ st.cache, t ∉ labelsV p.2 := by
    intro t ht p hp hcon
    have h1 := cloneV_labels_ge st.ctr d t ht
    have h2 := hwf2 p hp t hcon
    omega
  have hlater : stripOpt (getNoPath env { st with ctr := (cloneV st.ctr d).2 } k).val
      = some (stripV d) := by
    rw [getNoPath_present env _ k d (by simpa using hd) (by simpa using hk)]
    simp [stripOpt, stripV_clone]
  rw [hg]
  refine ⟨rfl, rfl, ?_, hlater, ?_⟩
  · intro t ht
    simp only [stateHasLabel, List.any_eq_false]
    intro p hp
    simpa using hfresh t ht p hp
  · intro t ht m
    have hid : mutState t m { st with ctr := (cloneV st.ctr d).2 }
        = { st with ctr := (cloneV st.ctr d).2 } :=
      mutState_id _ t m (fun p hp => hfresh t ht p hp)
    exact ⟨hid, by rw [hid]⟩

/-- C4 witness: the isolation of a no-path get, applied to a concrete store
and instantiated at the root label of the returned clone and a concrete
field mutation. -/
theorem c4_deep_get_isolated_witness :
    (wfCache stNest = true ∧ stNest.isDestroyed = false ∧
     alookup stNest.cache "k"
       = some (.obj 0 (.fcons "a" (.obj 1 (.fcons "b" (.num 1) .fnil)) .fnil))) ∧
    ((getNoPath envMem stNest "k").err = none ∧
     (∀ t ∈ labelsV (cloneV stNest.ctr
         (.obj 0 (.fcons "a" (.obj 1 (.fcons "b" (.num 1) .fnil)) .fnil))).1,
       ∀ m : Mut,
       mutState t m (getNoPath envMem stNest "k").st = (getNoPath envMem stNest "k").st ∧
       stripOpt (getNoPath envMem
           (mutState t m (getNoPath envMem stNest "k").st) "k").val
         = stripOpt (getNoPath envMem (getNoPath envMem stNest "k").st "k").val)) :=
  ⟨⟨rfl, rfl, rfl⟩,
   ⟨(c4_deep_get_isolated envMem stNest "k" _ rfl rfl rfl).1,
    (c4_deep_get_isolated envMem stNest "k" _ rfl rfl rfl).2.2.2.2⟩⟩

/-- C4 counterexample: the claim also covers get WITH a path argument, but
that branch returns the raw retained subtree.  On a concrete store holding
the nested object with inner label 1 under k, get(k, a) returns the inner
object carrying the retained label 1; assigning 2 to its field b changes
the store, and a later get(k) returns b = 2 where it previously returned
b = 1 — mutating the value returned by a path get changes later gets. -/
theorem c4_path_get_aliases :
    (getRun envMem stNest "k" (some ["a"])).val
      = some (.obj 1 (.fcons "b" (.num 1) .fnil)) ∧
    stripOpt (getRun envMem (getRun envMem stNest "k" (some ["a"])).st "k" none).val
      = some (.obj [("a", .obj [("b", .num 1)])]) ∧
    stripOpt (getRun envMem
        (mutState 1 (.setField "b" (.num 2)) (getRun envMem stNest "k" (some ["a"])).st)
        "k" none).val
      = some (.obj [("a", .obj [("b", .num 2)])]) :=
  ⟨rfl, rfl, rfl⟩

/-- One push(key, x, allowDupes false) on a key holding an array, for a
primitive x: no-op when a strictly equal element exists, else append and
persist; the occurrence count of x afterwards is max 1 count. -/
theorem flookup_fset_self (fs : JFields) (s : String) (w : JVal) :
    flookup (fset fs s w) s = some w := by
  cases fs with
  | fnil => simp [fset, flookup]
  | fcons k v r =>
      by_cases h : k = s
      · simp [fset, flookup, h]
      · simp [fset, flookup, h, flookup_fset_self r s w]

theorem eget_eset_self (i : Nat) (es : JElems) (w : JVal) :
    eget (eset es i w) i = some w := by
  cases i with
  | zero => cases es <;> simp [eset, eget]
  | succ n =>
      cases es with
      | enil => simpa [eset, eget] using eget_eset_self n .enil w
      | econs v r => simpa [eset, eget] using eget_eset_self n r w

theorem stripE_eappend (es : JElems) (y : JVal) :
    stripE (eappend es y) = stripE es ++ [stripV y] := by
  cases es with
  | enil => simp [eappend, stripE]
  | econs v r => simp [eappend, stripE, stripE_eappend r y]

/-- A deep clone allocated at counter c is never strictly equal to a
pre-existing container (one whose labels all lie below c): clones of
containers carry fresh labels at or above c. -/
theorem jsEq_cloneV_fresh (c : Nat) (v x : JVal) (hx : isPrim x = false)
    (hlt : ∀ t ∈ labelsV x, t < c) : jsEq (cloneV c v).1 x = false := by
  cases x with
  | obj lx fsx =>
      have hltx : lx < c := hlt lx (by simp [labelsV])
      cases v with
      | obj l fs =>
          have := cloneF_ctr_le c fs
          simp only [cloneV, jsEq, decide_eq_false_iff_not]
          omega
      | arr l es => simp [cloneV, jsEq]
      | null => simp [cloneV, jsEq]
      | bool b => simp [cloneV, jsEq]
      | num q => simp [cloneV, jsEq]
      | str s2 => simp [cloneV, jsEq]
  | arr lx esx =>
      have hltx : lx < c := hlt lx (by simp [labelsV])
      cases v with
      | arr l es =>
          have := cloneE_ctr_le c es
          simp only [cloneV, jsEq, decide_eq_false_iff_not]
          omega
      | obj l fs => simp [cloneV, jsEq]
      | null => simp [cloneV, jsEq]
      | bool b => simp [cloneV, jsEq]
      | num q => simp [cloneV, jsEq]
      | str s2 => simp [cloneV, jsEq]
  | null => simp [isPrim] at hx
  | bool b => simp [isPrim] at hx
  | num q => simp [isPrim] at hx
  | str s2 => simp [isPrim] at hx

theorem anyEq_cloneE_fresh (x : JVal) (hx : isPrim x = false) (c : Nat) (es : JElems)
    (hlt : ∀ t ∈ labelsV x, t < c) : anyEq (cloneE c es).1 x = false := by
  cases es with
  | enil => simp [cloneE, anyEq]
  | econs v r =>
      have h1 := jsEq_cloneV_fresh c v x hx hlt
      have hlt2 : ∀ t ∈ labelsV x, t < (cloneV c v).2 :=
        fun t ht => lt_of_lt_of_le (hlt t ht) (cloneV_ctr_le c v)
      have h2 := anyEq_cloneE_fresh x hx (cloneV c v).2 r hlt2
      simp [cloneE, anyEq, h1, h2]

theorem flookup_cloneF (s : String) (fs : JFields) (ch : JVal) (c : Nat)
    (h : flookup fs s = some ch) :
    ∃ c2, c ≤ c2 ∧ flookup (cloneF c fs).1 s = some (cloneV c2 ch).1 := by
  cases fs with
  | fnil => simp [flookup] at h
  | fcons k v r =>
      by_cases hks : k = s
      · refine ⟨c, le_refl c, ?_⟩
        have hv : v = ch := by simpa [flookup, hks] using h
        simp [cloneF, flookup, hks, hv]
      · obtain ⟨c2, hle, heq⟩ :=
          flookup_cloneF s r ch (cloneV c v).2 (by simpa [flookup, hks] using h)
        exact ⟨c2, le_trans (cloneV_ctr_le c v) hle, by simp [cloneF, flookup, hks, heq]⟩

theorem eget_cloneE (i : Nat) (es : JElems) (ch : JVal) (c : Nat)
    (h : eget es i = some ch) :
    ∃ c2, c ≤ c2 ∧ eget (cloneE c es).1 i = some (cloneV c2 ch).1 := by
  cases es with
  | enil => simp [eget] at h
  | econs v r =>
      cases i with
      | zero =>
          have hv : v = ch := by simpa [eget] using h
          exact ⟨c, le_refl c, by simp [cloneE, eget, hv]⟩
      | succ n =>
          obtain ⟨c2, hle, heq⟩ :=
            eget_cloneE n r ch (cloneV c v).2 (by simpa [eget] using h)
          exact ⟨c2, le_trans (cloneV_ctr_le c v) hle, by simp [cloneE, eget, heq]⟩

/-- lodash get of a deep clone resolves iff the original does, to the clone
of the original subtree (at a later counter). -/
theorem pathGet_cloneV (segs : List String) : ∀ (c : Nat) (d u : JVal),
    pathGet d segs = some u →
    ∃ c2, c ≤ c2 ∧ pathGet (cloneV c d).1 segs = some (cloneV c2 u).1 := by
  induction segs with
  | nil =>
      intro c d u h
      have hd : d = u := by simpa [pathGet] using h
      exact ⟨c, le_refl c, by simp [pathGet, hd]⟩
  | cons s rest ih =>
      intro c d u h
      cases d with
      | obj l fs =>
          simp only [pathGet] at h
          rcases hch : flookup fs s with _ | ch
          · rw [hch] at h
            simp at h
          · rw [hch] at h
            obtain ⟨c2, hle2, hfl⟩ := flookup_cloneF s fs ch c hch
            obtain ⟨c3, hle3, hpg⟩ := ih c2 ch u h
            exact ⟨c3, le_trans hle2 hle3, by simp [cloneV, pathGet, hfl, hpg]⟩
      | arr l es =>
          simp only [pathGet] at h
          rcases hsn : s.toNat? with _ | i
          · simp only [hsn] at h
            simp at h
          · simp only [hsn] at h
            rcases hch : eget es i with _ | ch
            · simp only [hch] at h
              simp at h
            · simp only [hch] at h
              obtain ⟨c2, hle2, hge⟩ := eget_cloneE i es ch c hch
              obtain ⟨c3, hle3, hpg⟩ := ih c2 ch u h
              exact ⟨c3, le_trans hle2 hle3, by simp [cloneV, pathGet, hsn, hge, hpg]⟩
      | null => simp [pathGet] at h
      | bool b => simp [pathGet] at h
      | num q => simp [pathGet] at h
      | str s2 => simp [pathGet] at h

/-- After a lodash set along a path that resolves in the original value, a
lodash get along the same path reads the written value back. -/
theorem pathGet_pathSet (segs : List String) : ∀ (c : Nat) (d u w : JVal),
    pathGet d segs = some u → segs ≠ [] →
    pathGet (pathSet c d segs w).1 segs = some w := by
  induction segs with
  | nil =>
      intro c d u w h hne
      exact absurd rfl hne
  | cons s rest ih =>
      intro c d u w h _
      cases d with
      | obj l fs =>
          simp only [pathGet] at h
          rcases hch : flookup fs s with _ | ch
          · simp only [hch] at h
            simp at h
          · simp only [hch] at h
            cases hr : rest with
            | nil =>
                subst hr
                simp [pathSet, pathSetGo, pathGet, flookup_fset_self]
            | cons r1 rr =>
                subst hr
                have hrec := ih c ch u w h (by simp)
                simp only [pathSet] at hrec
                have hstep : pathSetGo w (s :: r1 :: rr) c (.obj l fs)
                    = (.obj l (fset fs s (pathSetGo w (r1 :: rr) c ch).1),
                       (pathSetGo w (r1 :: rr) c ch).2) := by
                  simp [pathSetGo, hch]
                simp only [pathSet]
                rw [hstep]
                simpa [pathGet, flookup_fset_self] using hrec
      | arr l es =>
          simp only [pathGet] at h
          rcases hsn : s.toNat? with _ | i
          · simp only [hsn] at h
            simp at h
          · simp only [hsn] at h
            rcases hch : eget es i with _ | ch
            · simp only [hch] at h
              simp at h
            · simp only [hch] at h
              cases hr : rest with
              | nil =>
                  subst hr
                  simp [pathSet, pathSetGo, pathGet, hsn, eget_eset_self]
              | cons r1 rr =>
                  subst hr
                  have hrec := ih c ch u w h (by simp)
                  simp only [pathSet] at hrec
                  have hstep : pathSetGo w (s :: r1 :: rr) c (.arr l es)
                      = (.arr l (eset es i (pathSetGo w (r1 :: rr) c ch).1),
                         (pathSetGo w (r1 :: rr) c ch).2) := by
                    simp [pathSetGo, hsn, hch]
                  simp only [pathSet]
                  rw [hstep]
                  simpa [pathGet, hsn, eget_eset_self] using hrec
      | null => simp [pathGet] at h
      | bool b => simp [pathGet] at h
      | num q => simp [pathGet] at h
      | str s2 => simp [pathGet] at h

/-- The typed existence check of push(key, x, path): on an Object root
whose path resolves to an array, _check(key, Array, path) succeeds and only
advances the label counter. -/
theorem checkWithPath_present_arr (env : Env) (st : State) (k : String) (d : JVal)
    (segs : List String) (la : Nat) (esa : JElems)
    (hd : st.isDestroyed = false) (hk : alookup st.cache k = some d)
    (hobj : typeName d = some "Object")
    (hsub : pathGet d segs = some (.arr la esa)) :
    checkWithPath env st k ["Array"] segs
      = ⟨{ st with ctr := (cloneV (cloneV st.ctr d).2 d).2 }, [], none⟩ := by
  have hh := hasNoPath_present env st k d hd hk
  have hc := checkNoPath_present env st k d "Object" ["Object"] hd hk hobj (by simp)
  have hg2 := getNoPath_present env { st with ctr := (cloneV st.ctr d).2 } k d
      (by simpa using hd) (by simpa using hk)
  obtain ⟨c3, hle3, hpg⟩ :=
    pathGet_cloneV segs (cloneV st.ctr d).2 d (.arr la esa) hsub
  simp [checkWithPath, hh, hc, hg2, hpg, cloneV, typeName]

theorem pushRun_once (env : Env) (st : State) (k : String) (x : JVal) (l : Nat)
    (es : JElems) (hd : st.isDestroyed = false)
    (hk : alookup st.cache k = some (.arr l es)) (hx : isPrim x = true)
    (hs : ∀ v, ∃ s, env.encode v = Except.ok s) (hdb : env.dbOk = true) :
    (pushRun env st k x none false).err = none ∧
    (pushRun env st k x none false).st.isDestroyed = false ∧
    (0 < countEq es x →
      (pushRun env st k x none false).st.cache = st.cache ∧
      (pushRun env st k x none false).st.db = st.db) ∧
    ∃ l2 es2, alookup (pushRun env st k x none false).st.cache k = some (.arr l2 es2) ∧
      countEq es2 x = (if countEq es x = 0 then 1 else countEq es x) ∧
      (countEq es x = 0 → env.persistent = true →
        ∃ s, alookup (pushRun env st k x none false).st.db k = some s) := by
  have hg := getNoPath_present env st k (.arr l es) hd hk
  have hkA : alookup ({ st with ctr := (cloneV st.ctr (.arr l es)).2 } : State).cache k
      = some (.arr l es) := by simpa using hk
  have hdA : ({ st with ctr := (cloneV st.ctr (.arr l es)).2 } : State).isDestroyed
      = false := by simpa using hd
  have hchk := checkNoPath_present env { st with ctr := (cloneV st.ctr (.arr l es)).2 } k
      (.arr l es) "Array" ["Array"] hdA hkA rfl (by simp)
  have hclv : (cloneV st.ctr (.arr l es)).1
      = .arr (cloneE st.ctr es).2 (cloneE st.ctr es).1 := by simp [cloneV]
  cases hdup : anyEq es x with
  | true =>
      have hdup2 : anyEq (cloneE st.ctr es).1 x = true := by
        rw [anyEq_cloneE x hx]; exact hdup
      have hpos := countEq_pos_of_anyEq es x hdup
      have hres : pushRun env st k x none false =
          ⟨{ st with ctr := (cloneV ({ st with ctr := (cloneV st.ctr (.arr l es)).2 }
              : State).ctr (.arr l es)).2 }, [], none⟩ := by
        simp [pushRun, hg, checkRun, hchk, hclv, hdup2]
      rw [hres]
      refine ⟨rfl, hd, fun _ => ⟨rfl, rfl⟩, l, es, hk, ?_, ?_⟩
      · have : ¬ countEq es x = 0 := by omega
        simp [this]
      · intro h0
        omega
  | false =>
      have hdup2 : anyEq (cloneE st.ctr es).1 x = false := by
        rw [anyEq_cloneE x hx]; exact hdup
      have hcnt0 : countEq es x = 0 := countEq_eq_zero_of_anyEq_false es x hdup
      obtain ⟨hie, hic, hictr, hid, hiper, hinper⟩ :=
        internalSetEx_ok env
          { st with ctr := (cloneV ({ st with ctr := (cloneV st.ctr (.arr l es)).2 }
              : State).ctr (.arr l es)).2 } k
          (.arr (cloneE st.ctr es).2 (eappend (cloneE st.ctr es).1 x)) true
          (hs _) hdb
      have hres : pushRun env st k x none false =
          ⟨(internalSetEx env
              { st with ctr := (cloneV ({ st with ctr := (cloneV st.ctr (.arr l es)).2 }
                  : State).ctr (.arr l es)).2 } k
              (.arr (cloneE st.ctr es).2 (eappend (cloneE st.ctr es).1 x)) true).st,
           (internalSetEx env
              { st with ctr := (cloneV ({ st with ctr := (cloneV st.ctr (.arr l es)).2 }
                  : State).ctr (.arr l es)).2 } k
              (.arr (cloneE st.ctr es).2 (eappend (cloneE st.ctr es).1 x)) true).tr,
           (internalSetEx env
              { st with ctr := (cloneV ({ st with ctr := (cloneV st.ctr (.arr l es)).2 }
                  : State).ctr (.arr l es)).2 } k
              (.arr (cloneE st.ctr es).2 (eappend (cloneE st.ctr es).1 x)) true).err⟩ := by
        simp [pushRun, hg, checkRun, hchk, hclv, hdup2]
      rw [hres]
      refine ⟨hie, ?_, fun hpos => by omega, (cloneE st.ctr es).2,
        eappend (cloneE st.ctr es).1 x, ?_, ?_, fun _ hp => hiper hp⟩
      · rw [hid]
        exact hd
      · rw [hic]
        simp [alookup_aset_self]
      · rw [countEq_eappend, countEq_cloneE x hx, hcnt0, jsEq_refl_prim x hx]
        simp

/-- One push(key, x, allowDupes false) on a key holding an array, for any
value x, by cases on the indexOf check the code runs on the value returned
by get — a deep clone allocated at the current label counter. -/
theorem pushRun_nopath_cases (env : Env) (st : State) (k : String) (x : JVal) (l : Nat)
    (es : JElems) (hd : st.isDestroyed = false)
    (hk : alookup st.cache k = some (.arr l es))
    (hs : ∀ v, ∃ s, env.encode v = Except.ok s) (hdb : env.dbOk = true) :
    (anyEq (cloneE st.ctr es).1 x = true →
      (pushRun env st k x none false).err = none ∧
      (pushRun env st k x none false).st.cache = st.cache ∧
      (pushRun env st k x none false).st.db = st.db) ∧
    (anyEq (cloneE st.ctr es).1 x = false →
      (pushRun env st k x none false).err = none ∧
      ∃ nd, alookup (pushRun env st k x none false).st.cache k = some nd ∧
        stripV nd = .arr (stripE es ++ [stripV x]) ∧
        (env.persistent = true →
          ∃ s, alookup (pushRun env st k x none false).st.db k = some s)) := by
  have hg := getNoPath_present env st k (.arr l es) hd hk
  have hkA : alookup ({ st with ctr := (cloneV st.ctr (.arr l es)).2 } : State).cache k
      = some (.arr l es) := by simpa using hk
  have hdA : ({ st with ctr := (cloneV st.ctr (.arr l es)).2 } : State).isDestroyed
      = false := by simpa using hd
  have hchk := checkNoPath_present env { st with ctr := (cloneV st.ctr (.arr l es)).2 } k
      (.arr l es) "Array" ["Array"] hdA hkA rfl (by simp)
  have hclv : (cloneV st.ctr (.arr l es)).1
      = .arr (cloneE st.ctr es).2 (cloneE st.ctr es).1 := by simp [cloneV]
  constructor
  · intro hdup
    have hres : pushRun env st k x none false =
        ⟨{ st with ctr := (cloneV ({ st with ctr := (cloneV st.ctr (.arr l es)).2 }
            : State).ctr (.arr l es)).2 }, [], none⟩ := by
      simp [pushRun, hg, checkRun, hchk, hclv, hdup]
    rw [hres]
    exact ⟨rfl, rfl, rfl⟩
  · intro hdup
    obtain ⟨hie, hic, hictr, hid, hiper, hinper⟩ :=
      internalSetEx_ok env
        { st with ctr := (cloneV ({ st with ctr := (cloneV st.ctr (.arr l es)).2 }
            : State).ctr (.arr l es)).2 } k
        (.arr (cloneE st.ctr es).2 (eappend (cloneE st.ctr es).1 x)) true
        (hs _) hdb
    have hres : pushRun env st k x none false =
        ⟨(internalSetEx env
            { st with ctr := (cloneV ({ st with ctr := (cloneV st.ctr (.arr l es)).2 }
                : State).ctr (.arr l es)).2 } k
            (.arr (cloneE st.ctr es).2 (eappend (cloneE st.ctr es).1 x)) true).st,
         (internalSetEx env
            { st with ctr := (cloneV ({ st with ctr := (cloneV st.ctr (.arr l es)).2 }
                : State).ctr (.arr l es)).2 } k
            (.arr (cloneE st.ctr es).2 (eappend (cloneE st.ctr es).1 x)) true).tr,
         (internalSetEx env
            { st with ctr := (cloneV ({ st with ctr := (cloneV st.ctr (.arr l es)).2 }
                : State).ctr (.arr l es)).2 } k
            (.arr (cloneE st.ctr es).2 (eappend (cloneE st.ctr es).1 x)) true).err⟩ := by
      simp [pushRun, hg, checkRun, hchk, hclv, hdup]
    rw [hres]
    refine ⟨hie, .arr (cloneE st.ctr es).2 (eappend (cloneE st.ctr es).1 x),
      ?_, ?_, fun hp => hiper hp⟩
    · rw [hic]
      simp [alookup_aset_self]
    · simp [stripV, stripE_eappend, stripE_clone]

/-- One push(key, x, path, allowDupes false) on a key whose Object value
resolves at the path to an array, for any value x: the first get clones the
container at some counter at or above the current one, the indexOf check
runs on that clone of the addressed array, and on append the mutated
container is committed and the path reads the appended array back. -/
theorem pushRun_withpath (env : Env) (st : State) (k : String) (x : JVal)
    (segs : List String) (d : JVal) (la : Nat) (esa : JElems)
    (hd : st.isDestroyed = false) (hk : alookup st.cache k = some d)
    (hobj : typeName d = some "Object") (hne : segs ≠ [])
    (hsub : pathGet d segs = some (.arr la esa))
    (hs : ∀ v, ∃ s, env.encode v = Except.ok s) (hdb : env.dbOk = true) :
    ∃ c2, st.ctr ≤ c2 ∧
      ((anyEq (cloneE c2 esa).1 x = true →
          (pushRun env st k x (some segs) false).err = none ∧
          (pushRun env st k x (some segs) false).st.cache = st.cache ∧
          (pushRun env st k x (some segs) false).st.db = st.db) ∧
       (anyEq (cloneE c2 esa).1 x = false →
          (pushRun env st k x (some segs) false).err = none ∧
          ∃ nd, alookup (pushRun env st k x (some segs) false).st.cache k = some nd ∧
            (∃ la2 es2, pathGet nd segs = some (.arr la2 es2) ∧
              stripE es2 = stripE esa ++ [stripV x]) ∧
            (env.persistent = true →
              ∃ s, alookup (pushRun env st k x (some segs) false).st.db k = some s))) := by
  have hg := getNoPath_present env st k d hd hk
  have hchk := checkWithPath_present_arr env { st with ctr := (cloneV st.ctr d).2 } k d
      segs la esa (by simpa using hd) (by simpa using hk) hobj hsub
  obtain ⟨c2, hle, hpg⟩ := pathGet_cloneV segs st.ctr d (.arr la esa) hsub
  have hpg2 : pathGet (cloneV st.ctr d).1 segs
      = some (.arr (cloneE c2 esa).2 (cloneE c2 esa).1) := by
    simpa [cloneV] using hpg
  refine ⟨c2, hle, ?_, ?_⟩
  · intro hdup
    have hres : pushRun env st k x (some segs) false =
        ⟨{ st with
            ctr := (cloneV (cloneV ({ st with ctr := (cloneV st.ctr d).2 }
              : State).ctr d).2 d).2 }, [], none⟩ := by
      simp [pushRun, hg, checkRun, hchk, hpg2, hdup]
    rw [hres]
    exact ⟨rfl, rfl, rfl⟩
  · intro hdup
    obtain ⟨hie, hic, hictr, hid, hiper, hinper⟩ :=
      internalSetEx_ok env
        { st with
            ctr := (pathSet ((cloneV (cloneV ({ st with ctr := (cloneV st.ctr d).2 }
                : State).ctr d).2 d).2) (cloneV st.ctr d).1 segs
              (.arr (cloneE c2 esa).2 (eappend (cloneE c2 esa).1 x))).2 } k
        (pathSet ((cloneV (cloneV ({ st with ctr := (cloneV st.ctr d).2 }
            : State).ctr d).2 d).2) (cloneV st.ctr d).1 segs
          (.arr (cloneE c2 esa).2 (eappend (cloneE c2 esa).1 x))).1 true (hs _) hdb
    have hres : pushRun env st k x (some segs) false =
        ⟨(internalSetEx env
            { st with
                ctr := (pathSet ((cloneV (cloneV ({ st with ctr := (cloneV st.ctr d).2 }
                    : State).ctr d).2 d).2) (cloneV st.ctr d).1 segs
                  (.arr (cloneE c2 esa).2 (eappend (cloneE c2 esa).1 x))).2 } k
            (pathSet ((cloneV (cloneV ({ st with ctr := (cloneV st.ctr d).2 }
                : State).ctr d).2 d).2) (cloneV st.ctr d).1 segs
              (.arr (cloneE c2 esa).2 (eappend (cloneE c2 esa).1 x))).1 true).st,
         (internalSetEx env
            { st with
                ctr := (pathSet ((cloneV (cloneV ({ st with ctr := (cloneV st.ctr d).2 }
                    : State).ctr d).2 d).2) (cloneV st.ctr d).1 segs
                  (.arr (cloneE c2 esa).2 (eappend (cloneE c2 esa).1 x))).2 } k
            (pathSet ((cloneV (cloneV ({ st with ctr := (cloneV st.ctr d).2 }
                : State).ctr d).2 d).2) (cloneV st.ctr d).1 segs
              (.arr (cloneE c2 esa).2 (eappend (cloneE c2 esa).1 x))).1 true).tr,
         (internalSetEx env
            { st with
                ctr := (pathSet ((cloneV (cloneV ({ st with ctr := (cloneV st.ctr d).2 }
                    : State).ctr d).2 d).2) (cloneV st.ctr d).1 segs
                  (.arr (cloneE c2 esa).2 (eappend (cloneE c2 esa).1 x))).2 } k
            (pathSet ((cloneV (cloneV ({ st with ctr := (cloneV st.ctr d).2 }
                : State).ctr d).2 d).2) (cloneV st.ctr d).1 segs
              (.arr (cloneE c2 esa).2 (eappend (cloneE c2 esa).1 x))).1 true).err⟩ := by
      simp [pushRun, hg, checkRun, hchk, hpg2, hdup]
    rw [hres]
    refine ⟨hie, (pathSet ((cloneV (cloneV ({ st with ctr := (cloneV st.ctr d).2 }
        : State).ctr d).2 d).2) (cloneV st.ctr d).1 segs
      (.arr (cloneE c2 esa).2 (eappend (cloneE c2 esa).1 x))).1,
      ?_, ⟨(cloneE c2 esa).2, eappend (cloneE c2 esa).1 x, ?_, ?_⟩,
      fun hp => hiper hp⟩
    · rw [hic]
      simp [alookup_aset_self]
    · exact pathGet_pathSet segs _ (cloneV st.ctr d).1 _ _ hpg2 hne
    · simp [stripE_eappend, stripE_clone]

/-- C9 (amended): push(key, x, path?, allowDupes false) on the addressed
array is a no-op leaving cache and backing store unchanged when an element
strictly equal to x already exists in the array get returns (the freshly
fetched deep clone), and otherwise appends x and persists.  For a primitive
x, that strict-equality test coincides with membership of x in the stored
array; for a container x — whose labels all precede the counter, as any
pre-existing heap object — strict equality never holds against cloned
elements, so push always appends.  Both hold with and without a path.
Consequently, for a primitive x, pushing the same x twice leaves exactly
one occurrence of x in the array at that key — provided the array held at
most one occurrence beforehand (pre-existing duplicates are kept as they
are). -/
theorem c9_push_strict_equality_dedup :
    (∀ (env : Env) (st : State) (k : String) (x : JVal) (l : Nat) (es : JElems),
      st.isDestroyed = false → alookup st.cache k = some (.arr l es) →
      isPrim x = true →
      (∀ v, ∃ s, env.encode v = Except.ok s) → env.dbOk = true →
      (anyEq es x = true →
        (pushRun env st k x none false).err = none ∧
        (pushRun env st k x none false).st.cache = st.cache ∧
        (pushRun env st k x none false).st.db = st.db) ∧
      (anyEq es x = false →
        (pushRun env st k x none false).err = none ∧
        ∃ nd, alookup (pushRun env st k x none false).st.cache k = some nd ∧
          stripV nd = .arr (stripE es ++ [stripV x]) ∧
          (env.persistent = true →
            ∃ s, alookup (pushRun env st k x none false).st.db k = some s))) ∧
    (∀ (env : Env) (st : State) (k : String) (x : JVal) (l : Nat) (es : JElems),
      st.isDestroyed = false → alookup st.cache k = some (.arr l es) →
      isPrim x = false → (∀ t ∈ labelsV x, t < st.ctr) →
      (∀ v, ∃ s, env.encode v = Except.ok s) → env.dbOk = true →
      (pushRun env st k x none false).err = none ∧
      ∃ nd, alookup (pushRun env st k x none false).st.cache k = some nd ∧
        stripV nd = .arr (stripE es ++ [stripV x]) ∧
        (env.persistent = true →
          ∃ s, alookup (pushRun env st k x none false).st.db k = some s)) ∧
    (∀ (env : Env) (st : State) (k : String) (x : JVal) (segs : List String)
      (d : JVal) (la : Nat) (esa : JElems),
      st.isDestroyed = false → alookup st.cache k = some d →
      typeName d = some "Object" → segs ≠ [] →
      pathGet d segs = some (.arr la esa) → isPrim x = true →
      (∀ v, ∃ s, env.encode v = Except.ok s) → env.dbOk = true →
      (anyEq esa x = true →
        (pushRun env st k x (some segs) false).err = none ∧
        (pushRun env st k x (some segs) false).st.cache = st.cache ∧
        (pushRun env st k x (some segs) false).st.db = st.db) ∧
      (anyEq esa x = false →
        (pushRun env st k x (some segs) false).err = none ∧
        ∃ nd, alookup (pushRun env st k x (some segs) false).st.cache k = some nd ∧
          (∃ la2 es2, pathGet nd segs = some (.arr la2 es2) ∧
            stripE es2 = stripE esa ++ [stripV x]) ∧
          (env.persistent = true →
            ∃ s, alookup (pushRun env st k x (some segs) false).st.db k = some s))) ∧
    (∀ (env : Env) (st : State) (k : String) (x : JVal) (segs : List String)
      (d : JVal) (la : Nat) (esa : JElems),
      st.isDestroyed = false → alookup st.cache k = some d →
      typeName d = some "Object" → segs ≠ [] →
      pathGet d segs = some (.arr la esa) → isPrim x = false →
      (∀ t ∈ labelsV x, t < st.ctr) →
      (∀ v, ∃ s, env.encode v = Except.ok s) → env.dbOk = true →
      (pushRun env st k x (some segs) false).err = none ∧
      ∃ nd, alookup (pushRun env st k x (some segs) false).st.cache k = some nd ∧
        (∃ la2 es2, pathGet nd segs = some (.arr la2 es2) ∧
          stripE es2 = stripE esa ++ [stripV x]) ∧
        (env.persistent = true →
          ∃ s, alookup (pushRun env st k x (some segs) false).st.db k = some s)) ∧
    (∀ (env : Env) (st : State) (k : String) (x : JVal) (l : Nat) (es : JElems),
      st.isDestroyed = false → alookup st.cache k = some (.arr l es) →
      isPrim x = true → countEq es x ≤ 1 →
      (∀ v, ∃ s, env.encode v = Except.ok s) → env.dbOk = true →
      (pushRun env st k x none false).err = none ∧
      (0 < countEq es x →
        (pushRun env st k x none false).st.cache = st.cache ∧
        (pushRun env st k x none false).st.db = st.db) ∧
      (countEq es x = 0 → env.persistent = true →
        ∃ s, alookup (pushRun env st k x none false).st.db k = some s) ∧
      ∃ l2 es2, alookup (pushRun env st k x none false).st.cache k = some (.arr l2 es2) ∧
        countEq es2 x = 1 ∧
        (pushRun env (pushRun env st k x none false).st k x none false).err = none ∧
        ∃ l3 es3,
          alookup
            (pushRun env (pushRun env st k x none false).st k x none false).st.cache k
            = some (.arr l3 es3) ∧ countEq es3 x = 1) := by
  refine ⟨?_, ?_, ?_, ?_, ?_⟩
  · intro env st k x l es hd hk hx hs hdb
    obtain ⟨hdupT, hdupF⟩ := pushRun_nopath_cases env st k x l es hd hk hs hdb
    constructor
    · intro h
      exact hdupT (by rw [anyEq_cloneE x hx]; exact h)
    · intro h
      exact hdupF (by rw [anyEq_cloneE x hx]; exact h)
  · intro env st k x l es hd hk hx hlt hs hdb
    obtain ⟨_, hdupF⟩ := pushRun_nopath_cases env st k x l es hd hk hs hdb
    exact hdupF (anyEq_cloneE_fresh x hx st.ctr es hlt)
  · intro env st k x segs d la esa hd hk hobj hne hsub hx hs hdb
    obtain ⟨c2, hle, hdupT, hdupF⟩ :=
      pushRun_withpath env st k x segs d la esa hd hk hobj hne hsub hs hdb
    constructor
    · intro h
      exact hdupT (by rw [anyEq_cloneE x hx]; exact h)
    · intro h
      exact hdupF (by rw [anyEq_cloneE x hx]; exact h)
  · intro env st k x segs d la esa hd hk hobj hne hsub hx hlt hs hdb
    obtain ⟨c2, hle, _, hdupF⟩ :=
      pushRun_withpath env st k x segs d la esa hd hk hobj hne hsub hs hdb
    exact hdupF (anyEq_cloneE_fresh x hx c2 esa
      (fun t ht => lt_of_lt_of_le (hlt t ht) hle))
  · intro env st k x l es hd hk hx hcount hs hdb
    obtain ⟨he1, hdes1, hnoop1, l2, es2, hlk2, hcnt2, hdbp1⟩ :=
      pushRun_once env st k x l es hd hk hx hs hdb
    have hcnt2one : countEq es2 x = 1 := by
      rcases Nat.eq_zero_or_pos (countEq es x) with h0 | hpos
      · rw [hcnt2, if_pos h0]
      · have h1 : countEq es x = 1 := by omega
        rw [hcnt2, h1]
        simp
    obtain ⟨he2, _, _, l3, es3, hlk3, hcnt3, _⟩ :=
      pushRun_once env (pushRun env st k x none false).st k x l2 es2 hdes1 hlk2 hx hs hdb
    have hcnt3one : countEq es3 x = 1 := by
      rw [hcnt3, hcnt2one]
      simp
    exact ⟨he1, hnoop1, hdbp1, l2, es2, hlk2, hcnt2one, he2, l3, es3, hlk3, hcnt3one⟩

/-- C9 witness: pushing 5 twice into the empty array stored under k leaves
exactly one occurrence of 5. -/
theorem c9_push_strict_equality_dedup_witness :
    (stArr.isDestroyed = false ∧ alookup stArr.cache "k" = some (.arr 0 .enil) ∧
     isPrim (JVal.num 5) = true ∧ countEq .enil (.num 5) ≤ 1 ∧ envMem.dbOk = true) ∧
    ((pushRun envMem stArr "k" (.num 5) none false).err = none ∧
     (0 < countEq .enil (.num 5) →
       (pushRun envMem stArr "k" (.num 5) none false).st.cache = stArr.cache ∧
       (pushRun envMem stArr "k" (.num 5) none false).st.db = stArr.db) ∧
     (countEq .enil (.num 5) = 0 → envMem.persistent = true →
       ∃ s, alookup (pushRun envMem stArr "k" (.num 5) none false).st.db "k" = some s) ∧
     ∃ l2 es2,
       alookup (pushRun envMem stArr "k" (.num 5) none false).st.cache "k"
         = some (.arr l2 es2) ∧
       countEq es2 (.num 5) = 1 ∧
       (pushRun envMem (pushRun envMem stArr "k" (.num 5) none false).st "k"
           (.num 5) none false).err = none ∧
       ∃ l3 es3,
         alookup (pushRun envMem (pushRun envMem stArr "k" (.num 5) none false).st "k"
             (.num 5) none false).st.cache "k" = some (.arr l3 es3) ∧
         countEq es3 (.num 5) = 1) :=
  ⟨⟨rfl, rfl, rfl, by decide, rfl⟩,
   c9_push_strict_equality_dedup.2.2.2.2 envMem stArr "k" (.num 5) 0 .enil rfl rfl rfl
     (by decide) (fun v => ⟨"e", rfl⟩) rfl⟩

/-- C9 counterexample: the claim as stated says pushing the same x twice
with allowDupes false leaves exactly one occurrence of x at that key.  On a
concrete store whose array already holds 5 twice, both pushes are no-ops,
so two occurrences of 5 remain. -/
theorem c9_preexisting_duplicates_remain :
    countEq (.econs (.num 5) (.econs (.num 5) .enil)) (.num 5) = 2 ∧
    (pushRun envMem st55 "k" (.num 5) none false).st.cache = st55.cache ∧
    (pushRun envMem (pushRun envMem st55 "k" (.num 5) none false).st "k"
        (.num 5) none false).st.cache = st55.cache :=
  ⟨rfl, rfl, rfl⟩

/-- C10: math(key, op, operand) accepts every alias of the six operations —
add (addition, plus sign), sub (subtract, minus sign), mult (multiply,
star), div (divide, slash), exp (exponent, caret), mod (modulo, percent) —
applies the chosen operation to the stored number and writes the result
back through set; inc and dec add and subtract one through the internal
write path.  Concretely, after set(integer, 42), math(integer, plus, 5)
stores 47, inc then stores 48, and dec then stores 47 again. -/
theorem c10_math_through_set :
    (∀ b o : Rat,
      jsMathop "add" b o = some (b + o) ∧ jsMathop "addition" b o = some (b + o) ∧
      jsMathop "+" b o = some (b + o) ∧
      jsMathop "sub" b o = some (b - o) ∧ jsMathop "subtract" b o = some (b - o) ∧
      jsMathop "-" b o = some (b - o) ∧
      jsMathop "mult" b o = some (b * o) ∧ jsMathop "multiply" b o = some (b * o) ∧
      jsMathop "*" b o = some (b * o) ∧
      jsMathop "div" b o = some (b / o) ∧ jsMathop "divide" b o = some (b / o) ∧
      jsMathop "/" b o = some (b / o) ∧
      jsMathop "exp" b o = some (jsPow b o) ∧ jsMathop "exponent" b o = some (jsPow b o) ∧
      jsMathop "^" b o = some (jsPow b o) ∧
      jsMathop "mod" b o = some (jsMod b o) ∧ jsMathop "modulo" b o = some (jsMod b o) ∧
      jsMathop "%" b o = some (jsMod b o)) ∧
    (∀ (env : Env) (st : State) (k op : String) (opand b r : Rat),
      st.isDestroyed = false → alookup st.cache k = some (.num b) →
      jsMathop op b opand = some r →
      mathRun env st k op opand none = setRun env st k (.num r) none) ∧
    (∀ (env : Env) (st : State) (k : String) (r : Rat),
      st.isDestroyed = false → env.persistent = false →
      (alookup st.cache k).isSome = true →
      (setRun env st k (.num r) none).err = none ∧
      alookup (setRun env st k (.num r) none).st.cache k = some (.num r)) ∧
    (∀ (env : Env) (st : State) (k : String) (b : Rat),
      st.isDestroyed = false → alookup st.cache k = some (.num b) →
      (∀ v, ∃ s, env.encode v = Except.ok s) → env.dbOk = true →
      (incRun env st k none).err = none ∧
      alookup (incRun env st k none).st.cache k = some (.num (b + 1)) ∧
      (decRun env st k none).err = none ∧
      alookup (decRun env st k none).st.cache k = some (.num (b - 1))) ∧
    (alookup (setRun envMem st0 "integer" (.num 42) none).st.cache "integer"
        = some (.num 42) ∧
     alookup (mathRun envMem (setRun envMem st0 "integer" (.num 42) none).st
         "integer" "+" 5 none).st.cache "integer" = some (.num 47) ∧
     alookup (incRun envMem (mathRun envMem (setRun envMem st0 "integer" (.num 42) none).st
         "integer" "+" 5 none).st "integer" none).st.cache "integer" = some (.num 48) ∧
     alookup (decRun envMem (incRun envMem (mathRun envMem
         (setRun envMem st0 "integer" (.num 42) none).st "integer" "+" 5 none).st
         "integer" none).st "integer" none).st.cache "integer" = some (.num 47)) := by
  refine ⟨?_, ?_, ?_, ?_, rfl, ?_, ?_, ?_⟩
  · intro b o
    exact ⟨rfl, rfl, rfl, rfl, rfl, rfl, rfl, rfl, rfl, rfl, rfl, rfl, rfl, rfl, rfl,
      rfl, rfl, rfl⟩
  · intro env st k op opand b r hd hk hop
    have hchk : checkNoPath env st k ["Number"] = ⟨st, [], none⟩ := by
      rw [checkNoPath_present env st k (.num b) "Number" ["Number"] hd hk rfl (by simp)]
      rfl
    have hg2 : getNoPath env st k = ⟨st, [], none, some (.num b)⟩ := by
      rw [getNoPath_present env st k (.num b) hd hk]
      rfl
    simp [mathRun, checkRun, hchk, getRun, hg2, hop]
  · intro env st k r hd hp hks
    obtain ⟨d, hk⟩ := Option.isSome_iff_exists.mp hks
    have hg := getNoPath_present env st k d hd hk
    simp [setRun, hg, hk, internalSetEx, hp, cloneV, alookup_aset_self]
  · intro env st k b hd hk hs hdb
    have hchk : checkNoPath env st k ["Number"] = ⟨st, [], none⟩ := by
      rw [checkNoPath_present env st k (.num b) "Number" ["Number"] hd hk rfl (by simp)]
      rfl
    have hg2 : getNoPath env st k = ⟨st, [], none, some (.num b)⟩ := by
      rw [getNoPath_present env st k (.num b) hd hk]
      rfl
    obtain ⟨hie, hic, _, _, _, _⟩ := internalSetEx_ok env st k (.num (b + 1)) true (hs _) hdb
    obtain ⟨hie2, hic2, _, _, _, _⟩ := internalSetEx_ok env st k (.num (b - 1)) true (hs _) hdb
    refine ⟨?_, ?_, ?_, ?_⟩
    · simp [incRun, checkRun, hchk, hg2, hie]
    · simp only [incRun, checkRun, hchk, hg2]
      simp [hic, alookup_aset_self]
    · simp [decRun, checkRun, hchk, hg2, hie2]
    · simp only [decRun, checkRun, hchk, hg2]
      simp [hic2, alookup_aset_self]
  · have h1 : alookup (mathRun envMem (setRun envMem st0 "integer" (.num 42) none).st
        "integer" "+" 5 none).st.cache "integer" = some (.num (42 + 5)) := rfl
    rw [h1]
    norm_num
  · have h2 : alookup (incRun envMem (mathRun envMem
        (setRun envMem st0 "integer" (.num 42) none).st "integer" "+" 5 none).st
        "integer" none).st.cache "integer" = some (.num (42 + 5 + 1)) := rfl
    rw [h2]
    norm_num
  · have h3 : alookup (decRun envMem (incRun envMem (mathRun envMem
        (setRun envMem st0 "integer" (.num 42) none).st "integer" "+" 5 none).st
        "integer" none).st "integer" none).st.cache "integer"
        = some (.num (42 + 5 + 1 - 1)) := rfl
    rw [h3]
    norm_num

/-- C10 witness: the write-through-set part applied to a concrete store
holding 42 under integer, with the alias + and operand 5. -/
theorem c10_math_through_set_witness :
    (stInt.isDestroyed = false ∧ alookup stInt.cache "integer" = some (.num 42) ∧
     jsMathop "+" 42 5 = some 47) ∧
    mathRun envMem stInt "integer" "+" 5 none
      = setRun envMem stInt "integer" (.num 47) none :=
  ⟨⟨rfl, rfl, by simp [jsMathop]; norm_num⟩,
   c10_math_through_set.2.1 envMem stInt "integer" "+" 5 42 47 rfl rfl
     (by simp [jsMathop]; norm_num)⟩

end Enmap
